import Mathlib

/-!
Verification of the conversion-orchestration layer of the webp-playground
repository against its specification. Each section embeds the relevant
TypeScript/JavaScript source functions as Lean definitions (machine numbers
as Nat/Int/Rat, stateful code as explicit state passing, fallible code as
Except/Option) and proves or refutes the specification claims about them.
-/

namespace WebpPlayground

/-! ## Compression ratio (worker path and server path)

The worker (public/workers/image-conversion-worker.js, convertImage)
computes compressionRatio = file.size / convertedBlob.size directly.
The API route (app/api/convert/route.ts) writes the response header
X-Compression-Ratio as (file.size / outputBuffer.length).toFixed(2), and
the client (server-conversion-service.ts, convertImageOnServer) obtains
compressionRatio by parseFloat of that header. -/

namespace Compression

/-- Result record produced by the worker convertImage: originalSize is
file.size, convertedSize is convertedBlob.size, and compressionRatio is
file.size / convertedBlob.size (exact division, modelled over the
rationals). -/
structure WorkerResult where
  originalSize : ℕ
  convertedSize : ℕ
  compressionRatio : ℚ
deriving DecidableEq, Repr

/-- The worker convertImage metric computation: compressionRatio is
computed as file.size / convertedBlob.size. -/
def workerConvertMetrics (fileSize blobSize : ℕ) : WorkerResult :=
  { originalSize := fileSize
    convertedSize := blobSize
    compressionRatio := (fileSize : ℚ) / (blobSize : ℚ) }

/-- JavaScript Number.prototype.toFixed(2) followed by parseFloat: the exact
ratio is rounded to the nearest multiple of 1/100, ties toward the larger
value, which is the rounding of Mathlib round (round x = floor (x + 1/2)). -/
def toFixedTwoValue (q : ℚ) : ℚ :=
  ((round (q * 100) : ℤ) : ℚ) / 100

/-- The API route response header X-Compression-Ratio carries
(file.size / outputBuffer.length).toFixed(2). -/
def apiCompressionRatioHeader (fileSize outputLength : ℕ) : ℚ :=
  toFixedTwoValue ((fileSize : ℚ) / (outputLength : ℚ))

/-- The remote path of the result as assembled by convertImageOnServer:
originalSize and convertedSize come from the X-Original-Size and
X-Converted-Size headers (the exact byte counts), while compressionRatio is
parseFloat of the X-Compression-Ratio header, that is, the rounded value. -/
def serverConversionResult (fileSize outputLength : ℕ) : WorkerResult :=
  { originalSize := fileSize
    convertedSize := outputLength
    compressionRatio := apiCompressionRatioHeader fileSize outputLength }

/-- Claim C4, counterexample: for a 1-byte original and a 3-byte converted
output, the server path reports compressionRatio 33/100 (the toFixed(2)
header value), which is not the exact ratio 1/3, while the worker path is
exact. -/
theorem compression_ratio_counterexample :
    (serverConversionResult 1 3).compressionRatio = 33 / 100 ∧
      (serverConversionResult 1 3).compressionRatio ≠ (1 : ℚ) / 3 ∧
      (workerConvertMetrics 1 3).compressionRatio = (1 : ℚ) / 3 := by
  have h : (serverConversionResult 1 3).compressionRatio = 33 / 100 := by
    simp only [serverConversionResult, apiCompressionRatioHeader, toFixedTwoValue]
    norm_num [round_eq]
  refine ⟨h, ?_, rfl⟩
  rw [h]
  norm_num

/-- Rounding to two decimal places moves a rational by at most 1/200. -/
theorem toFixedTwo_close (q : ℚ) : |toFixedTwoValue q - q| ≤ 1 / 200 := by
  rw [toFixedTwoValue]
  have hr : |(round (q * 100) : ℚ) - q * 100| ≤ 1 / 2 := by
    rw [abs_sub_comm]
    exact abs_sub_round (q * 100)
  have heq : (round (q * 100) : ℚ) / 100 - q = ((round (q * 100) : ℚ) - q * 100) / 100 := by
    ring
  rw [heq, abs_div, show |(100 : ℚ)| = 100 from by norm_num]
  linarith

/-- Claim C4, amended: on the worker path compressionRatio equals
originalSize / convertedSize exactly (in particular multiplying back by the
converted size recovers the original size, so the ratio is not inverted
and not a percentage); on the server path the reported compressionRatio is
originalSize / convertedSize rounded to two decimal places by the
toFixed(2) header, within 1/200 of the exact ratio but not equal to it in
general. -/
theorem compression_ratio_paths (o c : ℕ) (hc : 0 < c) :
    (workerConvertMetrics o c).compressionRatio = (o : ℚ) / c ∧
    (workerConvertMetrics o c).compressionRatio * c = o ∧
    (serverConversionResult o c).compressionRatio =
      toFixedTwoValue ((o : ℚ) / c) ∧
    |(serverConversionResult o c).compressionRatio - (o : ℚ) / c| ≤ 1 / 200 := by
  have hc0 : ((c : ℚ)) ≠ 0 := by
    exact_mod_cast Nat.pos_iff_ne_zero.1 hc
  refine ⟨rfl, ?_, rfl, ?_⟩
  · show (o : ℚ) / c * c = o
    field_simp
  · exact toFixedTwo_close ((o : ℚ) / c)

/-- Witness for claim C4: the amended statement at originalSize 1 and
convertedSize 3. -/
theorem compression_ratio_paths_witness :
    (workerConvertMetrics 1 3).compressionRatio = (1 : ℚ) / 3 ∧
    (workerConvertMetrics 1 3).compressionRatio * 3 = 1 ∧
    (serverConversionResult 1 3).compressionRatio =
      toFixedTwoValue ((1 : ℚ) / 3) ∧
    |(serverConversionResult 1 3).compressionRatio - (1 : ℚ) / 3| ≤ 1 / 200 := by
  have h := compression_ratio_paths 1 3 (by norm_num)
  simpa using h

end Compression

/-! ## Cancellation handling in useImageConversion.processJob

cancelJob sets a processing job status to cancelled and aborts its
controller.  processJob passes a progress callback into
ImageConversionService.convertImage that throws Error("Job cancelled") when
the abort signal is set.  ImageConversionService.convertImage wraps every
error thrown inside its try block into a new
Error("Conversion failed: " + message).  The catch branch of processJob then
compares the caught message with the exact string "Job cancelled" to decide
between the cancelled and error status and whether to record the job in the
aggregate errors map. -/

namespace Cancellation

/-- Job status values of the job map kept by useImageConversion. -/
inductive JobStatus
  | pending
  | processing
  | completed
  | error
  | cancelled
deriving DecidableEq, Repr

/-- View of one job entry as touched by the catch branch of processJob:
the status stored in the jobs map and whether the job id is present in the
aggregate errors map. -/
structure JobView where
  status : JobStatus
  inErrorMap : Bool
deriving DecidableEq, Repr

/-- Message wrapping performed by ImageConversionService.convertImage: any
error thrown inside the conversion (including the cancellation error thrown
by the progress callback) is rethrown as
Error("Conversion failed: " + originalMessage). -/
def conversionServiceWrap (msg : String) : String :=
  "Conversion failed: " ++ msg

/-- Catch branch of processJob in useImageConversion: the job (still present
in the map, whatever its current status) gets status cancelled when the
caught message equals "Job cancelled" and status error otherwise, and the
job is added to the errors map unless the message equals "Job cancelled". -/
def processJobCatch (j : JobView) (msg : String) : JobView :=
  { status := if msg = "Job cancelled" then JobStatus.cancelled else JobStatus.error
    inErrorMap := if msg = "Job cancelled" then j.inErrorMap else true }

/-- Step of cancelJob on a processing job: the status becomes cancelled
(and the abort controller is aborted, which makes the progress callback
throw "Job cancelled" at the next checkpoint inside convertImage). -/
def cancelProcessingJob (j : JobView) : JobView :=
  { j with status := JobStatus.cancelled }

/-- The wrapped message is never the exact string "Job cancelled" the catch
branch of processJob tests for, whatever the original message. -/
theorem wrap_ne_job_cancelled (msg : String) :
    conversionServiceWrap msg ≠ "Job cancelled" := by
  intro h
  have hlen := congrArg String.length h
  rw [conversionServiceWrap, String.length_append] at hlen
  have h19 : ("Conversion failed: " : String).length = 19 := rfl
  have h13 : ("Job cancelled" : String).length = 13 := rfl
  omega

/-- Claim C6: the code violates it.  A job cancelled while processing has
status cancelled; when the in-flight convertImage then surfaces the
cancellation (thrown as "Job cancelled" by the progress callback but
rewrapped by ImageConversionService.convertImage as
"Conversion failed: Job cancelled"), the catch branch of processJob changes
the status from cancelled to error, emits the error event, and adds the
job to the aggregate errors map, because the rewrapped message never equals
the tested string "Job cancelled". -/
theorem cancelled_job_becomes_error (j : JobView) (msg : String) :
    (cancelProcessingJob j).status = JobStatus.cancelled ∧
    (processJobCatch (cancelProcessingJob j) (conversionServiceWrap msg)).status =
      JobStatus.error ∧
    (processJobCatch (cancelProcessingJob j) (conversionServiceWrap msg)).inErrorMap =
      true := by
  refine ⟨rfl, ?_, ?_⟩ <;>
    simp [processJobCatch, wrap_ne_job_cancelled msg]

end Cancellation

/-! ## Worker progress trace for one job

handleConversionRequest (public/workers/image-conversion-worker.js) reports
percent 2 ("Performing memory cleanup...") when memory pressure is high
before it reports percent 0 ("Starting conversion...").  convertImage then
reports 10 (file validated), 20 and 30 (inside loadImageToCanvas), 40
(image loaded), 50 (canvas validated), 70 and 85 (inside
convertCanvasToFormat), 90 (format conversion complete) and 100 (conversion
complete), and handleConversionRequest posts exactly one terminal message
(CONVERSION_COMPLETE on success, CONVERSION_ERROR on any thrown error). -/

namespace WorkerTrace

/-- Messages posted by the worker for one job id. -/
inductive WEvent
  | progress (percent : ℕ)
  | complete
  | failed
deriving DecidableEq, Repr

/-- Percent values of the progress checkpoints of the worker convertImage
pipeline, in the order the code reports them on the success path. -/
def convertImageCheckpoints : List ℕ := [10, 20, 30, 40, 50, 70, 85, 90, 100]

/-- Message trace handleConversionRequest produces for one job: the optional
memory cleanup report at percent 2, the starting report at percent 0, the
checkpoints of convertImage up to the point where the pipeline fails
(failAt = some k means the error is thrown after k checkpoints were
reported; failAt = none is the success path), and the single terminal
message. -/
def handleConversionRequestTrace (memPressureHigh : Bool) (failAt : Option ℕ) :
    List WEvent :=
  (if memPressureHigh then [WEvent.progress 2] else []) ++
  [WEvent.progress 0] ++
  (match failAt with
   | none => convertImageCheckpoints.map WEvent.progress ++ [WEvent.complete]
   | some k => (convertImageCheckpoints.take k).map WEvent.progress ++ [WEvent.failed])

/-- Percent values of the progress messages of a trace, in order. -/
def progressPercents (t : List WEvent) : List ℕ :=
  t.filterMap (fun e =>
    match e with
    | WEvent.progress p => some p
    | _ => none)

/-- Whether an event is a terminal message. -/
def isTerminalEvent (e : WEvent) : Bool :=
  match e with
  | WEvent.progress _ => false
  | WEvent.complete => true
  | WEvent.failed => true

/-- A list of percents is non-decreasing. -/
def nonDecreasing : List ℕ → Bool
  | [] => true
  | [_] => true
  | a :: b :: t => decide (a ≤ b) && nonDecreasing (b :: t)

/-- The trace contains exactly one terminal event and it is the last
element. -/
def singleTerminalLast (t : List WEvent) : Bool :=
  match t.reverse with
  | [] => false
  | e :: rest => isTerminalEvent e && (rest.filter isTerminalEvent).length = 0

/-- Claim C5, counterexample: when memory pressure is high the worker
reports percent 2 ("Performing memory cleanup...") before percent 0
("Starting conversion..."), so the emitted progress sequence is not
non-decreasing. -/
theorem worker_progress_counterexample :
    progressPercents (handleConversionRequestTrace true none) =
      [2, 0, 10, 20, 30, 40, 50, 70, 85, 90, 100] ∧
    nonDecreasing (progressPercents (handleConversionRequestTrace true none)) =
      false := by
  constructor <;> decide

/-- Claim C5, amended: when no memory-cleanup report is emitted (memory
pressure not high) the progress percentages of a job are non-decreasing,
whether the pipeline succeeds or fails at any checkpoint; and in all cases
(with or without the cleanup report) exactly one terminal message is
emitted, after all of the job's progress messages. -/
theorem worker_trace_order (failAt : Option ℕ) (memHigh : Bool) :
    nonDecreasing (progressPercents (handleConversionRequestTrace false failAt)) =
      true ∧
    singleTerminalLast (handleConversionRequestTrace memHigh failAt) = true := by
  have htake : ∀ k : ℕ, 9 ≤ k →
      convertImageCheckpoints.take k = convertImageCheckpoints := by
    intro k hk
    apply List.take_of_length_le
    simpa [convertImageCheckpoints] using hk
  constructor
  · cases failAt with
    | none => decide
    | some k =>
      by_cases hk : k ≤ 8
      · interval_cases k <;> decide
      · rw [handleConversionRequestTrace, htake k (by omega)]
        decide
  · cases failAt with
    | none => cases memHigh <;> decide
    | some k =>
      by_cases hk : k ≤ 8
      · cases memHigh <;> (interval_cases k <;> decide)
      · rw [handleConversionRequestTrace, htake k (by omega)]
        cases memHigh <;> decide

end WorkerTrace

/-! ## Download service (download-service.ts)

generateFilename strips the original extension (substring up to the last
dot), optionally prepends a custom prefix, optionally appends a timestamp
(taken from the clock; modelled as an explicit argument), and appends the
extension matching the result format.  downloadAsZip first sums the
convertedSize of all results and throws before loading the compression
library or adding any file when the sum exceeds MAX_ZIP_SIZE; otherwise it
loads JSZip and adds every result under its derived filename with
zip.file(filename, bytes), which keys entries by name and replaces an
existing entry with the same name. -/

namespace Download

/-- The fields of a ConversionResultType the download service reads: the
original file name, the result format, the converted size in bytes, and the
converted bytes (kept abstract as a token, since the packaging code never
inspects them). -/
structure ConversionResult where
  originalName : String
  format : String
  convertedSize : ℕ
  data : ℕ
deriving DecidableEq, Repr

/-- Download options read by generateFilename. -/
structure DownloadOptions where
  addTimestamp : Bool := false
  customPrefix : Option String := none
deriving DecidableEq, Repr

/-- The 500MB ceiling MAX_ZIP_SIZE = 500 * 1024 * 1024 of DownloadService. -/
def MAX_ZIP_SIZE : ℕ := 500 * 1024 * 1024

/-- baseName.substring(0, baseName.lastIndexOf(".")) when a dot occurs in
the name, the name itself otherwise. -/
def stripFileExtension (name : String) : String :=
  let cs := name.data
  match cs.reverse.findIdx? (fun c => c = '.') with
  | none => name
  | some j => String.mk (cs.take (cs.length - 1 - j))

/-- getFileExtension: the extensions table maps jpeg to jpg and every other
listed format (png, gif, webp, avif, svg, ico) to itself, with the format
string itself as fallback for unknown formats, so only jpeg is rewritten. -/
def getFileExtension (format : String) : String :=
  if format = "jpeg" then "jpg" else format

/-- generateFilename: strip the original extension, prepend
customPrefix + "_" when customPrefix is a truthy (nonempty) string, append
"_" + timestamp when addTimestamp is set, then append "." and the extension
for the result format. -/
def generateFilename (r : ConversionResult) (opts : DownloadOptions)
    (timestamp : String) : String :=
  let base0 := stripFileExtension r.originalName
  let base1 :=
    match opts.customPrefix with
    | some p => if p = "" then base0 else p ++ "_" ++ base0
    | none => base0
  let base2 := if opts.addTimestamp then base1 ++ "_" ++ timestamp else base1
  base2 ++ "." ++ getFileExtension r.format

/-- Observable work performed by downloadAsZip after the size gate: the
dynamic import of the compression library and each zip.file call. -/
inductive ZipAction
  | loadLibrary
  | addFile (filename : String)
deriving DecidableEq, Repr

/-- zip.file(name, bytes) on a JSZip archive: entries are keyed by name, so
an existing entry with the same name is replaced, otherwise the entry is
appended. -/
def zipFilePut (z : List (String × ℕ)) (name : String) (d : ℕ) :
    List (String × ℕ) :=
  if z.any (fun e => e.1 = name) then
    z.map (fun e => if e.1 = name then (name, d) else e)
  else
    z ++ [(name, d)]

/-- downloadAsZip: sums convertedSize over the results, throws when the sum
exceeds MAX_ZIP_SIZE (before loading JSZip and before adding any file),
otherwise loads JSZip and adds every result under its derived filename in
order.  Returns the performed actions together with the outcome. -/
def downloadAsZip (results : List ConversionResult) (opts : DownloadOptions)
    (timestamp : String) :
    List ZipAction × Except String (List (String × ℕ)) :=
  let totalSize := (results.map (fun r => r.convertedSize)).sum
  if totalSize > MAX_ZIP_SIZE then
    ([], Except.error "Total file size exceeds ZIP limit")
  else
    let acts :=
      ZipAction.loadLibrary ::
        results.map (fun r => ZipAction.addFile (generateFilename r opts timestamp))
    let archive :=
      results.foldl (fun z r => zipFilePut z (generateFilename r opts timestamp) r.data) []
    (acts, Except.ok archive)

/-- Lookup of the bytes stored under a filename in the archive. -/
def zipLookup (z : List (String × ℕ)) (name : String) : Option ℕ :=
  (z.find? (fun e => e.1 = name)).map (fun e => e.2)

/-- The bytes of the last result of the batch that derives the given
filename, if any. -/
def lastDataFor (results : List ConversionResult) (opts : DownloadOptions)
    (timestamp : String) (name : String) : Option ℕ :=
  (results.reverse.find? (fun r => generateFilename r opts timestamp = name)).map
    (fun r => r.data)

/-- Claim C9: when the summed convertedSize of the results exceeds the
500MB ceiling MAX_ZIP_SIZE, downloadAsZip rejects with an error before the
compression library is loaded and before any file is added (so no archive
bytes are produced): the action list is empty and the outcome is the
error. -/
theorem zip_size_gate (results : List ConversionResult)
    (opts : DownloadOptions) (timestamp : String)
    (h : MAX_ZIP_SIZE < (results.map (fun r => r.convertedSize)).sum) :
    (downloadAsZip results opts timestamp).1 = [] ∧
    (downloadAsZip results opts timestamp).2 =
      Except.error "Total file size exceeds ZIP limit" := by
  rw [downloadAsZip]
  rw [if_pos h]
  exact ⟨rfl, rfl⟩

/-- Witness for claim C9: a single result one byte over the ceiling. -/
theorem zip_size_gate_witness :
    (downloadAsZip [⟨"big.png", "webp", 524288001, 0⟩] {} "t").1 = [] ∧
    (downloadAsZip [⟨"big.png", "webp", 524288001, 0⟩] {} "t").2 =
      Except.error "Total file size exceeds ZIP limit" :=
  zip_size_gate [⟨"big.png", "webp", 524288001, 0⟩] {} "t" (by decide)

/-- Sample results whose derived filenames collide: both convert to webp
and share the stem "photo". -/
def photoPng : ConversionResult := ⟨"photo.png", "webp", 10, 1⟩

/-- Second sample result with the same derived filename as photoPng. -/
def photoJpg : ConversionResult := ⟨"photo.jpg", "webp", 10, 2⟩

/-- Claim C8, counterexample: two results of one batch derive the same
filename "photo.webp"; downloadAsZip then produces an archive with a
single entry holding only the second result's bytes, silently dropping the
first result. -/
theorem zip_duplicate_dropped_counterexample :
    generateFilename photoPng {} "t" = "photo.webp" ∧
    generateFilename photoJpg {} "t" = "photo.webp" ∧
    (downloadAsZip [photoPng, photoJpg] {} "t").2.toOption =
      some [("photo.webp", 2)] := by
  refine ⟨?_, ?_, ?_⟩ <;> decide

/-- Replacing the entry of one name leaves the lookup of every other name
unchanged. -/
theorem lookup_map_other (z : List (String × ℕ)) (m : String) (d : ℕ) (n : String)
    (hnm : n ≠ m) :
    zipLookup (z.map (fun e => if e.1 = m then (m, d) else e)) n = zipLookup z n := by
  induction z with
  | nil => rfl
  | cons e t ih =>
    by_cases hem : e.1 = m
    · have h1 : ¬ (m = n) := fun h => hnm h.symm
      have h2 : ¬ (e.1 = n) := fun h => hnm (hem ▸ h).symm
      simp only [List.map_cons, if_pos hem, zipLookup, List.find?_cons]
      rw [show (decide (m = n)) = false from decide_eq_false h1,
        show (decide (e.1 = n)) = false from decide_eq_false h2]
      exact ih
    · simp only [List.map_cons, if_neg hem, zipLookup, List.find?_cons]
      cases hen : decide (e.1 = n) with
      | true => rfl
      | false => exact ih

/-- Replacing the entry of a present name makes its lookup the new bytes. -/
theorem lookup_map_self (z : List (String × ℕ)) (m : String) (d : ℕ)
    (hz : z.any (fun e => e.1 = m) = true) :
    zipLookup (z.map (fun e => if e.1 = m then (m, d) else e)) m = some d := by
  induction z with
  | nil => simp at hz
  | cons e t ih =>
    by_cases hem : e.1 = m
    · simp [zipLookup, List.find?_cons, if_pos hem]
    · rw [List.any_cons] at hz
      have hz2 : t.any (fun e => e.1 = m) = true := by
        simpa [hem] using hz
      simp only [List.map_cons, if_neg hem, zipLookup, List.find?_cons]
      rw [show (decide (e.1 = m)) = false from decide_eq_false hem]
      exact ih hz2

/-- Appending an entry of a fresh name makes its lookup the new bytes and
leaves every other name unchanged. -/
theorem lookup_append_single (z : List (String × ℕ)) (m : String) (d : ℕ)
    (n : String) (hz : z.any (fun e => e.1 = m) = false) :
    zipLookup (z ++ [(m, d)]) n = if n = m then some d else zipLookup z n := by
  induction z with
  | nil =>
    by_cases hnm : n = m
    · subst hnm
      simp [zipLookup, List.find?_cons]
    · simp only [List.nil_append, zipLookup, List.find?_cons,
        show (decide (m = n)) = false from decide_eq_false (fun h => hnm h.symm)]
      simp [List.find?, if_neg hnm, zipLookup]
  | cons e t ih =>
    rw [List.any_cons, Bool.or_eq_false_iff] at hz
    obtain ⟨h1, h2⟩ := hz
    have hem : ¬ e.1 = m := of_decide_eq_false h1
    simp only [List.cons_append, zipLookup, List.find?_cons]
    cases hen : decide (e.1 = n) with
    | true =>
      have hnm : ¬ n = m := by
        have := of_decide_eq_true hen
        exact fun h => hem (h ▸ this)
      rw [if_neg hnm]
    | false =>
      exact ih h2

/-- Looking up a name after zip.file stores new bytes under that name and
leaves every other name unchanged. -/
theorem zipLookup_put (z : List (String × ℕ)) (m : String) (d : ℕ) (n : String) :
    zipLookup (zipFilePut z m d) n = if n = m then some d else zipLookup z n := by
  rw [zipFilePut]
  by_cases hz : z.any (fun e => e.1 = m)
  · rw [if_pos hz]
    by_cases hnm : n = m
    · subst hnm
      rw [if_pos rfl]
      exact lookup_map_self z n d hz
    · rw [if_neg hnm]
      exact lookup_map_other z m d n hnm
  · have hzf : z.any (fun e => e.1 = m) = false := Bool.eq_false_iff.2 hz
    rw [if_neg hz]
    exact lookup_append_single z m d n hzf

/-- The archive built by folding zip.file over the results maps every name
to the bytes of the last result of the batch deriving that name. -/
theorem zipLookup_foldl (results : List ConversionResult)
    (opts : DownloadOptions) (timestamp : String) (z : List (String × ℕ))
    (n : String) :
    zipLookup (results.foldl
        (fun z r => zipFilePut z (generateFilename r opts timestamp) r.data) z) n =
      match (results.reverse.find? (fun r => generateFilename r opts timestamp = n)) with
      | some r => some r.data
      | none => zipLookup z n := by
  induction results generalizing z with
  | nil => rfl
  | cons r t ih =>
    rw [List.foldl_cons, ih, List.reverse_cons, List.find?_append]
    cases hfind : t.reverse.find? (fun r => generateFilename r opts timestamp = n) with
    | some a => simp [Option.orElse, hfind]
    | none =>
      simp only [Option.orElse, hfind, Option.none_orElse]
      rw [zipLookup_put]
      by_cases hnm : n = generateFilename r opts timestamp
      · rw [if_pos hnm]
        have hd : decide (generateFilename r opts timestamp = n) = true :=
          decide_eq_true hnm.symm
        simp [List.find?, hd]
      · rw [if_neg hnm]
        have hd : decide (generateFilename r opts timestamp = n) = false :=
          decide_eq_false (fun h => hnm h.symm)
        simp [List.find?, hd]

/-- Claim C8, amended: filename derivation strips the original extension
and appends the extension matching the result format, and for fixed
options and timestamp it is a pure function of the result; but when two
results of one batch derive the same filename, downloadAsZip does not keep
both: the archive holds, under each derived name, exactly the bytes of the
last result of the batch with that name, so earlier colliding results are
silently dropped. -/
theorem zip_archive_keeps_last (results : List ConversionResult)
    (opts : DownloadOptions) (timestamp : String)
    (hsize : (results.map (fun r => r.convertedSize)).sum ≤ MAX_ZIP_SIZE) :
    ∃ archive, (downloadAsZip results opts timestamp).2 = Except.ok archive ∧
      ∀ n, zipLookup archive n =
        match (results.reverse.find?
            (fun r => generateFilename r opts timestamp = n)) with
        | some r => some r.data
        | none => none := by
  rw [downloadAsZip, if_neg (by omega)]
  refine ⟨_, rfl, ?_⟩
  intro n
  rw [zipLookup_foldl]
  cases hfind : results.reverse.find?
      (fun r => generateFilename r opts timestamp = n) with
  | some a => rfl
  | none => rfl

/-- Witness for claim C8: the colliding batch, where the archive maps
"photo.webp" to the bytes of the second result only. -/
theorem zip_archive_keeps_last_witness :
    ∃ archive, (downloadAsZip [photoPng, photoJpg] {} "t").2 = Except.ok archive ∧
      ∀ n, zipLookup archive n =
        match ([photoPng, photoJpg].reverse.find?
            (fun r => generateFilename r {} "t" = n)) with
        | some r => some r.data
        | none => none :=
  zip_archive_keeps_last [photoPng, photoJpg] {} "t" (by decide)

end Download

/-! ## Error handling service (error-handling-service.ts)

categorizeError classifies an error by substring tests on the lowercased
message (and stack), getRecoveryStrategy maps the category (refined by
message substrings for conversion errors) to a recovery strategy with a
canRetry flag and an optional maxRetries bound, and shouldRetryError
decides one retry from the strategy, the current retry count and the recent
error history. -/

namespace ErrorHandling

/-- Contiguous-occurrence helper: the first list occurs at the head of the
second list. -/
def charsLead : List Char → List Char → Bool
  | [], _ => true
  | _ :: _, [] => false
  | a :: as, b :: bs => a = b && charsLead as bs

/-- The needle occurs contiguously somewhere in the hay. -/
def charsOccur (hay needle : List Char) : Bool :=
  match hay with
  | [] => needle.isEmpty
  | _ :: t => charsLead needle hay || charsOccur t needle

/-- JavaScript String.prototype.includes on our strings. -/
def strIncludes (hay needle : String) : Bool :=
  charsOccur hay.data needle.data

/-- Error categories of the error handling service. -/
inductive ErrorCategory
  | validation
  | conversion
  | network
  | memory
  | permission
  | browser
  | file
  | unknown
deriving DecidableEq, Repr

/-- categorizeError: the branch cascade over the lowercased message, the
lowercased stack, and the error name, in source order. -/
def categorizeError (name message stack : String) : ErrorCategory :=
  let m := message.toLower
  let s := stack.toLower
  if strIncludes m "file" || strIncludes m "blob" || strIncludes m "size" ||
      strIncludes m "format" then
    ErrorCategory.file
  else if strIncludes m "validation" ||
      (strIncludes m "invalid" && !strIncludes m "file") ||
      (strIncludes m "unsupported" && !strIncludes m "file") ||
      strIncludes m "corrupt" then
    ErrorCategory.validation
  else if strIncludes m "conversion" || strIncludes m "canvas" ||
      strIncludes m "image" || strIncludes m "webp" || strIncludes m "avif" then
    ErrorCategory.conversion
  else if strIncludes m "memory" || strIncludes m "allocation" ||
      strIncludes m "out of memory" || strIncludes s "rangeerror" then
    ErrorCategory.memory
  else if strIncludes m "network" || strIncludes m "fetch" ||
      strIncludes m "connection" || strIncludes m "timeout" ||
      name = "NetworkError" then
    ErrorCategory.network
  else if strIncludes m "permission" || strIncludes m "denied" ||
      strIncludes m "unauthorized" || strIncludes m "security" then
    ErrorCategory.permission
  else if (strIncludes m "not supported" && !strIncludes m "file") ||
      strIncludes m "undefined" || strIncludes m "not a function" ||
      strIncludes s "typeerror" then
    ErrorCategory.browser
  else
    ErrorCategory.unknown

/-- ErrorRecoveryStrategyType: canRetry with the optional retryDelay,
maxRetries, fallbackAction, userAction and autoRecover fields. -/
structure RecoveryStrategy where
  canRetry : Bool
  retryDelay : Option ℕ := none
  maxRetries : Option ℕ := none
  fallbackAction : Option String := none
  userAction : Option String := none
  autoRecover : Bool := false
deriving DecidableEq, Repr

/-- getRecoveryStrategy: the switch over the category, with the two
message-substring refinements of the conversion case, in source order. -/
def getRecoveryStrategy (message : String) (category : ErrorCategory) :
    RecoveryStrategy :=
  let m := message.toLower
  match category with
  | ErrorCategory.file =>
      { canRetry := false
        userAction := some "Select a different file" }
  | ErrorCategory.validation =>
      { canRetry := false
        userAction := some "Select a different file" }
  | ErrorCategory.conversion =>
      if strIncludes m "memory" then
        { canRetry := true
          maxRetries := some 1
          retryDelay := some 2000
          fallbackAction := some "Reduce quality settings"
          userAction := some "Try with lower quality settings or smaller file" }
      else if strIncludes m "timeout" then
        { canRetry := true
          maxRetries := some 2
          retryDelay := some 1000
          fallbackAction := some "Use default settings"
          userAction := some "Try with default conversion settings" }
      else
        { canRetry := true
          maxRetries := some 3
          retryDelay := some 1000
          userAction := some "Try again or refresh the page" }
  | ErrorCategory.memory =>
      { canRetry := false
        fallbackAction := some "Clear cache and reload"
        userAction := some "Refresh the page or process fewer files" }
  | ErrorCategory.network =>
      { canRetry := true
        maxRetries := some 3
        retryDelay := some 2000
        userAction := some "Check your internet connection"
        autoRecover := true }
  | ErrorCategory.permission =>
      { canRetry := false
        userAction := some "Check browser permissions and try again" }
  | ErrorCategory.browser =>
      { canRetry := false
        fallbackAction := some "Use alternative method"
        userAction := some "Try refreshing the page or use a different browser" }
  | ErrorCategory.unknown =>
      { canRetry := true
        maxRetries := some 1
        retryDelay := some 1000
        userAction := some "Try again or refresh the page" }

/-- Entry of the static error history as read by shouldRetryError: the
category and the timestamp of a processed error. -/
structure HistoryEntry where
  category : ErrorCategory
  timestamp : ℕ
deriving DecidableEq, Repr

/-- shouldRetryError: false when the strategy forbids retrying; false when
maxRetries is set (and nonzero, JavaScript truthiness) and the current
retry count has reached it; false when more than 3 errors of the same
category were recorded in the last minute; true otherwise. -/
def shouldRetryError (strategy : RecoveryStrategy) (category : ErrorCategory)
    (currentRetryCount : ℕ) (errorHistory : List HistoryEntry) (now : ℕ) :
    Bool :=
  if !strategy.canRetry then
    false
  else if
    (match strategy.maxRetries with
     | some r => decide (r ≠ 0) && decide (r ≤ currentRetryCount)
     | none => false) then
    false
  else
    let recentSimilarErrors :=
      (errorHistory.filter (fun e =>
        decide (e.category = category) && decide (now - e.timestamp < 60000))).length
    if recentSimilarErrors > 3 then false else true

/-- Once the current retry count has reached a nonzero maxRetries bound,
shouldRetryError denies the retry whatever the history. -/
theorem shouldRetry_false_at_bound (s : RecoveryStrategy) (cat : ErrorCategory)
    (R count : ℕ) (hmr : s.maxRetries = some R) (hR : 1 ≤ R) (hcount : R ≤ count)
    (hist : List HistoryEntry) (now : ℕ) :
    shouldRetryError s cat count hist now = false := by
  rw [shouldRetryError]
  cases hcr : s.canRetry with
  | false => simp [hcr]
  | true =>
    have h1 : R ≠ 0 := by omega
    simp [hcr, hmr, h1, hcount]

/-- Below a maxRetries bound of at most 3, shouldRetryError grants the
retry to a job whose history holds only its own failures so far (one entry
of its category per attempt, all within the last minute). -/
theorem shouldRetry_true_under_bound (s : RecoveryStrategy) (cat : ErrorCategory)
    (R count now : ℕ) (hcr : s.canRetry = true) (hmr : s.maxRetries = some R)
    (hR3 : R ≤ 3) (hcount : count < R) :
    shouldRetryError s cat count (List.replicate (count + 1) ⟨cat, now⟩) now =
      true := by
  rw [shouldRetryError]
  have hc2 : decide (R ≤ count) = false := decide_eq_false (by omega)
  have hfil : (List.replicate (count + 1)
      (⟨cat, now⟩ : HistoryEntry)).filter (fun e =>
        decide (e.category = cat) && decide (now - e.timestamp < 60000)) =
      List.replicate (count + 1) ⟨cat, now⟩ := by
    rw [List.filter_replicate]
    simp
  have h3 : ¬ count + 1 > 3 := by omega
  simp [hcr, hmr, hc2, hfil, h3]

/-- Claim C7: for every error message and category, if the recovery
strategy computed by getRecoveryStrategy permits retries then it carries a
maxRetries bound R between 1 and 3, shouldRetryError returns false whenever
the current retry count has reached R (whatever the history), and it
returns true for every retry attempt below R for a job whose recent
history is its own failures, so a job that keeps failing with that error
performs exactly R retries (R + 1 total attempts), never R + 1 retries. -/
theorem retry_bound (message : String) (category : ErrorCategory)
    (hcr : (getRecoveryStrategy message category).canRetry = true) :
    ∃ R, (getRecoveryStrategy message category).maxRetries = some R ∧
      1 ≤ R ∧ R ≤ 3 ∧
      (∀ count hist now, R ≤ count →
        shouldRetryError (getRecoveryStrategy message category) category count
          hist now = false) ∧
      (∀ count now, count < R →
        shouldRetryError (getRecoveryStrategy message category) category count
          (List.replicate (count + 1) ⟨category, now⟩) now = true) := by
  have main : ∃ R, (getRecoveryStrategy message category).maxRetries = some R ∧
      1 ≤ R ∧ R ≤ 3 := by
    cases category with
    | file => simp [getRecoveryStrategy] at hcr
    | validation => simp [getRecoveryStrategy] at hcr
    | conversion =>
      rw [getRecoveryStrategy]
      split_ifs with h1 h2
      · exact ⟨1, rfl, by omega, by omega⟩
      · exact ⟨2, rfl, by omega, by omega⟩
      · exact ⟨3, rfl, by omega, by omega⟩
    | memory => simp [getRecoveryStrategy] at hcr
    | network => exact ⟨3, rfl, by omega, by omega⟩
    | permission => simp [getRecoveryStrategy] at hcr
    | browser => simp [getRecoveryStrategy] at hcr
    | unknown => exact ⟨1, rfl, by omega, by omega⟩
  obtain ⟨R, hmr, hR1, hR3⟩ := main
  refine ⟨R, hmr, hR1, hR3, ?_, ?_⟩
  · intro count hist now hc
    exact shouldRetry_false_at_bound _ category R count hmr hR1 hc hist now
  · intro count now hc
    exact shouldRetry_true_under_bound _ category R count now hcr hmr hR3 hc

/-- Witness for claim C7: the network category (maxRetries 3) at the
message "connection lost": denial at retry count 3, grants below 3. -/
theorem retry_bound_witness :
    ∃ R, (getRecoveryStrategy "connection lost" ErrorCategory.network).maxRetries =
        some R ∧
      1 ≤ R ∧ R ≤ 3 ∧
      (∀ count hist now, R ≤ count →
        shouldRetryError (getRecoveryStrategy "connection lost"
          ErrorCategory.network) ErrorCategory.network count hist now = false) ∧
      (∀ count now, count < R →
        shouldRetryError (getRecoveryStrategy "connection lost"
            ErrorCategory.network) ErrorCategory.network count
          (List.replicate (count + 1) ⟨ErrorCategory.network, now⟩) now = true) :=
  retry_bound "connection lost" ErrorCategory.network (by rfl)

end ErrorHandling

/-! ## Job scheduler of useImageConversion

The hook schedules jobs with three pieces of shared state: the jobs map
(statuses), the queue of pending job ids (jobQueueRef) and the active set
(activeJobsRef).  convertFiles appends fresh pending jobs to the map and
the queue; processQueue shifts ids off the queue head only while the
active count is below maxConcurrentJobs and starts processJob on each
(status pending becomes processing, any other pulled status becomes
error); a finished processJob sets a terminal status and removes the id
from the active set; cancelJob removes the id from the queue and cancels a
pending or processing job; cancelAllJobs cancels every pending or
processing job and clears the queue and the active set; retryJob moves a
job in error status back to pending and re-enqueues it.  Each transition
is modelled as one atomic step, matching the synchronous setState blocks of
the hook. -/

namespace Scheduler

/-- Status update of one job id in the jobs map (Map.set of the updated
job object keyed by its id): the entry with the given key gets the new
status, every other entry is unchanged. -/
def updateStatus : List (ℕ × Cancellation.JobStatus) → ℕ →
    (Cancellation.JobStatus → Cancellation.JobStatus) →
    List (ℕ × Cancellation.JobStatus)
  | [], _, _ => []
  | p :: t, id, f =>
    (if p.1 = id then (p.1, f p.2) else p) :: updateStatus t id f

/-- Scheduler state: the statuses of all jobs, the queued ids, and the
active set. -/
structure SchedState where
  jobs : List (ℕ × Cancellation.JobStatus)
  queue : List ℕ
  active : List ℕ
deriving DecidableEq, Repr

/-- Transitions of the scheduler with concurrency cap C, mirroring the
synchronous state updates of useImageConversion. -/
inductive Step (C : ℕ) : SchedState → SchedState → Prop
  | submit (s : SchedState) (id : ℕ) (hfresh : s.jobs.lookup id = none) :
      Step C s
        { jobs := s.jobs ++ [(id, Cancellation.JobStatus.pending)]
          queue := s.queue ++ [id]
          active := s.active }
  | pull (s : SchedState) (id : ℕ) (rest : List ℕ) (hq : s.queue = id :: rest)
      (hcap : s.active.length < C) :
      Step C s
        { jobs := updateStatus s.jobs id (fun st =>
            if st = Cancellation.JobStatus.pending then
              Cancellation.JobStatus.processing
            else Cancellation.JobStatus.error)
          queue := rest
          active := id :: s.active }
  | finish (s : SchedState) (id : ℕ) (st : Cancellation.JobStatus)
      (hmem : id ∈ s.active)
      (hterm : st = Cancellation.JobStatus.completed ∨
        st = Cancellation.JobStatus.error ∨
        st = Cancellation.JobStatus.cancelled) :
      Step C s
        { jobs := updateStatus s.jobs id (fun _ => st)
          queue := s.queue
          active := s.active.erase id }
  | cancelOne (s : SchedState) (id : ℕ) :
      Step C s
        { jobs := updateStatus s.jobs id (fun st =>
            if st = Cancellation.JobStatus.pending ∨
                st = Cancellation.JobStatus.processing then
              Cancellation.JobStatus.cancelled
            else st)
          queue := s.queue.erase id
          active := s.active }
  | cancelAll (s : SchedState) :
      Step C s
        { jobs := s.jobs.map (fun p => (p.1,
            if p.2 = Cancellation.JobStatus.pending ∨
                p.2 = Cancellation.JobStatus.processing then
              Cancellation.JobStatus.cancelled
            else p.2))
          queue := []
          active := [] }
  | retry (s : SchedState) (id : ℕ)
      (hst : s.jobs.lookup id = some Cancellation.JobStatus.error) :
      Step C s
        { jobs := updateStatus s.jobs id (fun _ => Cancellation.JobStatus.pending)
          queue := s.queue ++ [id]
          active := s.active }

/-- States reachable from the empty scheduler by any sequence of
submissions, pulls, completions, cancellations and retries. -/
inductive Reachable (C : ℕ) : SchedState → Prop
  | init : Reachable C { jobs := [], queue := [], active := [] }
  | step (s t : SchedState) (hr : Reachable C s) (hs : Step C s t) :
      Reachable C t

/-- Number of jobs whose status is processing. -/
def processingCount (s : SchedState) : ℕ :=
  (s.jobs.filter (fun p => p.2 = Cancellation.JobStatus.processing)).length

/-- Invariant tying the three pieces of scheduler state together: job keys,
the queue and the active set have no duplicates, the active set respects
the cap, queued jobs are pending, active jobs are processing or cancelled,
and every processing job is active. -/
def Inv (C : ℕ) (s : SchedState) : Prop :=
  (s.jobs.map Prod.fst).Nodup ∧
  s.queue.Nodup ∧
  s.active.Nodup ∧
  s.active.length ≤ C ∧
  (∀ i ∈ s.queue, s.jobs.lookup i = some Cancellation.JobStatus.pending) ∧
  (∀ i ∈ s.active,
    s.jobs.lookup i = some Cancellation.JobStatus.processing ∨
    s.jobs.lookup i = some Cancellation.JobStatus.cancelled) ∧
  (∀ p ∈ s.jobs, p.2 = Cancellation.JobStatus.processing → p.1 ∈ s.active)

/-- Keys are unchanged by a status update. -/
theorem keys_updateStatus (jobs : List (ℕ × Cancellation.JobStatus)) (id : ℕ)
    (f : Cancellation.JobStatus → Cancellation.JobStatus) :
    (updateStatus jobs id f).map Prod.fst = jobs.map Prod.fst := by
  induction jobs with
  | nil => rfl
  | cons p t ih =>
    rw [updateStatus, List.map_cons, List.map_cons, ih]
    by_cases h : p.1 = id <;> simp [h]

/-- Keys are unchanged by a map over all values. -/
theorem keys_mapValues (jobs : List (ℕ × Cancellation.JobStatus))
    (g : ℕ × Cancellation.JobStatus → Cancellation.JobStatus) :
    (jobs.map (fun p => (p.1, g p))).map Prod.fst = jobs.map Prod.fst := by
  rw [List.map_map]
  apply List.map_congr_left
  intro p _
  rfl

/-- Lookup after a status update of one id. -/
theorem lookup_updateStatus (jobs : List (ℕ × Cancellation.JobStatus)) (id : ℕ)
    (f : Cancellation.JobStatus → Cancellation.JobStatus) (i : ℕ) :
    (updateStatus jobs id f).lookup i =
      if i = id then (jobs.lookup id).map f else jobs.lookup i := by
  induction jobs with
  | nil => by_cases h : i = id <;> simp [updateStatus, h]
  | cons p t ih =>
    rw [updateStatus]
    by_cases hp : p.1 = id
    · rw [if_pos hp]
      by_cases hi : i = id
      · subst hi
        have hb : (i == p.1) = true := beq_iff_eq.2 hp.symm
        simp [List.lookup, hb]
      · have hb : (i == p.1) = false :=
          beq_eq_false_iff_ne.2 (fun h => hi (h.trans hp))
        rw [if_neg hi]
        simp only [List.lookup, hb]
        rw [ih, if_neg hi]
    · rw [if_neg hp]
      by_cases hip : i = p.1
      · have hb : (i == p.1) = true := beq_iff_eq.2 hip
        have hi : ¬ i = id := fun h => hp ((hip.symm.trans h) ▸ rfl)
        simp only [List.lookup, hb, if_neg hi]
      · have hb : (i == p.1) = false := beq_eq_false_iff_ne.2 hip
        have hb2 : (id == p.1) = false :=
          beq_eq_false_iff_ne.2 (fun h => hp h.symm)
        simp only [List.lookup, hb, hb2]
        exact ih

/-- Lookup after a map over all values. -/
theorem lookup_mapValues (jobs : List (ℕ × Cancellation.JobStatus))
    (g : Cancellation.JobStatus → Cancellation.JobStatus) (i : ℕ) :
    (jobs.map (fun p => (p.1, g p.2))).lookup i = (jobs.lookup i).map g := by
  induction jobs with
  | nil => rfl
  | cons p t ih =>
    simp only [List.map_cons, List.lookup]
    cases hb : (i == p.1) with
    | true => rfl
    | false => exact ih

/-- Lookup after appending one entry at the back. -/
theorem lookup_append_entry (l : List (ℕ × Cancellation.JobStatus))
    (id i : ℕ) (st : Cancellation.JobStatus) :
    (l ++ [(id, st)]).lookup i =
      match l.lookup i with
      | some v => some v
      | none => if i = id then some st else none := by
  induction l with
  | nil =>
    by_cases h : i = id
    · subst h
      simp [List.lookup]
    · have hb : (i == id) = false := beq_eq_false_iff_ne.2 h
      simp [List.lookup, hb, h]
  | cons p t ih =>
    simp only [List.cons_append, List.lookup]
    cases hb : (i == p.1) with
    | true => rfl
    | false => exact ih

/-- A key that looks up to none heads no entry of the list. -/
theorem lookup_none_forall (l : List (ℕ × Cancellation.JobStatus)) (id : ℕ)
    (h : l.lookup id = none) : ∀ p ∈ l, p.1 ≠ id := by
  induction l with
  | nil => intro p hp; simp at hp
  | cons q t ih =>
    intro p hp
    rw [List.lookup] at h
    cases hb : (id == q.1) with
    | true => rw [hb] at h; simp at h
    | false =>
      rw [hb] at h
      rcases List.mem_cons.1 hp with rfl | hpt
      · exact fun he => (beq_eq_false_iff_ne.1 hb) he.symm
      · exact ih h p hpt

/-- A successful lookup exhibits a member of the list. -/
theorem lookup_some_mem (l : List (ℕ × Cancellation.JobStatus)) (i : ℕ)
    (st : Cancellation.JobStatus) (h : l.lookup i = some st) : (i, st) ∈ l := by
  induction l with
  | nil => simp [List.lookup] at h
  | cons q t ih =>
    rw [List.lookup] at h
    cases hb : (i == q.1) with
    | true =>
      rw [hb] at h
      have h1 : q.1 = i := (beq_iff_eq.1 hb).symm
      have h2 : q.2 = st := by
        simpa using h
      have hq : (i, st) = q := by
        rw [← h1, ← h2]
      rw [← hq] at *
      exact List.mem_cons_self _ _
    | false =>
      rw [hb] at h
      exact List.mem_cons_of_mem q (ih h)

/-- The recursive updateStatus agrees with the map over the jobs list. -/
theorem updateStatus_eq_map (jobs : List (ℕ × Cancellation.JobStatus)) (id : ℕ)
    (f : Cancellation.JobStatus → Cancellation.JobStatus) :
    updateStatus jobs id f =
      jobs.map (fun q => if q.1 = id then (q.1, f q.2) else q) := by
  induction jobs with
  | nil => rfl
  | cons p t ih => rw [updateStatus, List.map_cons, ih]

/-- Membership in an updated jobs list comes from membership in the
original list. -/
theorem mem_updateStatus (jobs : List (ℕ × Cancellation.JobStatus)) (id : ℕ)
    (f : Cancellation.JobStatus → Cancellation.JobStatus)
    (p : ℕ × Cancellation.JobStatus) (hp : p ∈ updateStatus jobs id f) :
    ∃ q ∈ jobs, p = (if q.1 = id then (q.1, f q.2) else q) := by
  rw [updateStatus_eq_map] at hp
  obtain ⟨q, hq, hpq⟩ := List.mem_map.1 hp
  exact ⟨q, hq, hpq.symm⟩

/-- With nodup keys, every member is found by looking up its key. -/
theorem mem_lookup_of_nodup (l : List (ℕ × Cancellation.JobStatus))
    (hn : (l.map Prod.fst).Nodup) (p : ℕ × Cancellation.JobStatus)
    (hp : p ∈ l) : l.lookup p.1 = some p.2 := by
  induction l with
  | nil => simp at hp
  | cons q t ih =>
    rw [List.map_cons, List.nodup_cons] at hn
    rcases List.mem_cons.1 hp with rfl | hpt
    · rw [List.lookup, beq_iff_eq.2 rfl]
    · have hne : ¬ p.1 = q.1 := by
        intro he
        exact hn.1 (he ▸ List.mem_map_of_mem Prod.fst hpt)
      rw [List.lookup, beq_eq_false_iff_ne.2 hne]
      exact ih hn.2 hpt

/-- The empty scheduler satisfies the invariant. -/
theorem inv_init (C : ℕ) : Inv C { jobs := [], queue := [], active := [] } := by
  refine ⟨List.nodup_nil, List.nodup_nil, List.nodup_nil, Nat.zero_le C,
    ?_, ?_, ?_⟩
  · intro i hi
    simp at hi
  · intro i hi
    simp at hi
  · intro p hp
    simp at hp

/-- Every scheduler step preserves the invariant. -/
theorem inv_preserved (C : ℕ) (s t : SchedState) (hinv : Inv C s)
    (hs : Step C s t) : Inv C t := by
  obtain ⟨hk, hqn, han, hcap, hqs, has, hpr⟩ := hinv
  cases hs with
  | submit id hfresh =>
    have hidk : ∀ p ∈ s.jobs, p.1 ≠ id := lookup_none_forall s.jobs id hfresh
    have hidq : id ∉ s.queue := by
      intro hmem
      have h := hqs id hmem
      rw [hfresh] at h
      exact Option.noConfusion h
    refine ⟨?_, ?_, han, hcap, ?_, ?_, ?_⟩
    · rw [List.map_append, List.nodup_append]
      refine ⟨hk, by simp, ?_⟩
      intro a ha hb
      have haid : a = id := by simpa using hb
      obtain ⟨p, hp, hpa⟩ := List.mem_map.1 ha
      exact hidk p hp (hpa.trans haid)
    · rw [List.nodup_append]
      refine ⟨hqn, by simp, ?_⟩
      intro a ha hb
      have haid : a = id := by simpa using hb
      exact hidq (haid ▸ ha)
    · intro i hi
      rcases List.mem_append.1 hi with h1 | h2
      · rw [lookup_append_entry, hqs i h1]
      · have h2id : i = id := by simpa using h2
        subst h2id
        rw [lookup_append_entry, hfresh]
        simp
    · intro i hi
      rcases has i hi with h | h
      · left
        rw [lookup_append_entry, h]
      · right
        rw [lookup_append_entry, h]
    · intro p hp hst
      rcases List.mem_append.1 hp with h1 | h2
      · exact hpr p h1 hst
      · have hpe : p = (id, Cancellation.JobStatus.pending) := by simpa using h2
        rw [hpe] at hst
        simp at hst
  | pull id rest hq hcap2 =>
    have hidq : id ∈ s.queue := by
      rw [hq]
      exact List.mem_cons_self _ _
    have hpend : s.jobs.lookup id = some Cancellation.JobStatus.pending :=
      hqs id hidq
    have hrest : rest.Nodup ∧ id ∉ rest := by
      rw [hq, List.nodup_cons] at hqn
      exact ⟨hqn.2, hqn.1⟩
    have hidact : id ∉ s.active := by
      intro hmem
      rcases has id hmem with h | h <;> rw [hpend] at h <;> simp at h
    refine ⟨?_, hrest.1, ?_, ?_, ?_, ?_, ?_⟩
    · rw [keys_updateStatus]
      exact hk
    · exact List.nodup_cons.2 ⟨hidact, han⟩
    · simpa using hcap2
    · intro i hi
      have hiq : i ∈ s.queue := by
        rw [hq]
        exact List.mem_cons_of_mem _ hi
      have hne : ¬ i = id := fun h => hrest.2 (h ▸ hi)
      rw [lookup_updateStatus, if_neg hne]
      exact hqs i hiq
    · intro i hi
      rcases List.mem_cons.1 hi with rfl | hmem
      · left
        rw [lookup_updateStatus, if_pos rfl, hpend]
        rfl
      · have hne : ¬ i = id := fun h => hidact (h ▸ hmem)
        rw [lookup_updateStatus, if_neg hne]
        exact has i hmem
    · intro p hp hst
      obtain ⟨q, hq2, hpq⟩ := mem_updateStatus s.jobs id _ p hp
      by_cases hqid : q.1 = id
      · rw [if_pos hqid] at hpq
        rw [hpq, hqid]
        exact List.mem_cons_self _ _
      · rw [if_neg hqid] at hpq
        rw [hpq] at hst ⊢
        exact List.mem_cons_of_mem _ (hpr q hq2 hst)
  | finish id st hmem hterm =>
    have hqid : ∀ i ∈ s.queue, ¬ i = id := by
      intro i hi he
      subst he
      have h1 := hqs i hi
      rcases has i hmem with h | h <;> rw [h1] at h <;> simp at h
    refine ⟨?_, hqn, List.Nodup.erase id han, ?_, ?_, ?_, ?_⟩
    · rw [keys_updateStatus]
      exact hk
    · exact le_trans (List.erase_sublist id s.active).length_le hcap
    · intro i hi
      rw [lookup_updateStatus, if_neg (hqid i hi)]
      exact hqs i hi
    · intro i hi
      have hi2 : i ≠ id ∧ i ∈ s.active := (List.Nodup.mem_erase_iff han).1 hi
      rw [lookup_updateStatus, if_neg hi2.1]
      exact has i hi2.2
    · intro p hp hst
      obtain ⟨q, hq2, hpq⟩ := mem_updateStatus s.jobs id _ p hp
      by_cases hqid2 : q.1 = id
      · rw [if_pos hqid2] at hpq
        rw [hpq] at hst
        rcases hterm with h | h | h <;> rw [h] at hst <;> simp at hst
      · rw [if_neg hqid2] at hpq
        rw [hpq] at hst ⊢
        exact (List.Nodup.mem_erase_iff han).2 ⟨hqid2, hpr q hq2 hst⟩
  | cancelOne id =>
    refine ⟨?_, List.Nodup.erase id hqn, han, hcap, ?_, ?_, ?_⟩
    · rw [keys_updateStatus]
      exact hk
    · intro i hi
      have hi2 : i ≠ id ∧ i ∈ s.queue := (List.Nodup.mem_erase_iff hqn).1 hi
      rw [lookup_updateStatus, if_neg hi2.1]
      exact hqs i hi2.2
    · intro i hi
      by_cases hiid : i = id
      · subst hiid
        rw [lookup_updateStatus, if_pos rfl]
        rcases has i hi with h | h <;> rw [h]
        · right
          rfl
        · right
          rfl
      · rw [lookup_updateStatus, if_neg hiid]
        exact has i hi
    · intro p hp hst
      obtain ⟨q, hq2, hpq⟩ := mem_updateStatus s.jobs id _ p hp
      by_cases hqid : q.1 = id
      · rw [if_pos hqid] at hpq
        rw [hpq] at hst
        simp only at hst
        by_cases hc : q.2 = Cancellation.JobStatus.pending ∨
            q.2 = Cancellation.JobStatus.processing
        · rw [if_pos hc] at hst
          simp at hst
        · rw [if_neg hc] at hst
          exact absurd (Or.inr hst) hc
      · rw [if_neg hqid] at hpq
        rw [hpq] at hst ⊢
        exact hpr q hq2 hst
  | cancelAll =>
    refine ⟨?_, List.nodup_nil, List.nodup_nil, Nat.zero_le C, ?_, ?_, ?_⟩
    · rw [keys_mapValues]
      exact hk
    · intro i hi
      simp at hi
    · intro i hi
      simp at hi
    · intro p hp hst
      obtain ⟨q, hq2, hpq⟩ := List.mem_map.1 hp
      rw [← hpq] at hst
      simp only at hst
      by_cases hc : q.2 = Cancellation.JobStatus.pending ∨
          q.2 = Cancellation.JobStatus.processing
      · rw [if_pos hc] at hst
        simp at hst
      · rw [if_neg hc] at hst
        exact absurd (Or.inr hst) hc
  | retry id hst =>
    have hqid : ∀ i ∈ s.queue, ¬ i = id := by
      intro i hi he
      subst he
      have h1 := hqs i hi
      rw [hst] at h1
      simp at h1
    have hactid : id ∉ s.active := by
      intro hmem
      rcases has id hmem with h | h <;> rw [hst] at h <;> simp at h
    refine ⟨?_, ?_, han, hcap, ?_, ?_, ?_⟩
    · rw [keys_updateStatus]
      exact hk
    · rw [List.nodup_append]
      refine ⟨hqn, by simp, ?_⟩
      intro a ha hb
      have haid : a = id := by simpa using hb
      exact hqid a ha haid
    · intro i hi
      rcases List.mem_append.1 hi with h1 | h2
      · rw [lookup_updateStatus, if_neg (hqid i h1)]
        exact hqs i h1
      · have h2id : i = id := by simpa using h2
        subst h2id
        rw [lookup_updateStatus, if_pos rfl, hst]
        rfl
    · intro i hi
      have hne : ¬ i = id := fun h => hactid (h ▸ hi)
      rw [lookup_updateStatus, if_neg hne]
      exact has i hi
    · intro p hp hst2
      obtain ⟨q, hq2, hpq⟩ := mem_updateStatus s.jobs id _ p hp
      by_cases hqid2 : q.1 = id
      · rw [if_pos hqid2] at hpq
        rw [hpq] at hst2
        simp at hst2
      · rw [if_neg hqid2] at hpq
        rw [hpq] at hst2 ⊢
        exact hpr q hq2 hst2

/-- With distinct job keys, the processing jobs inject into the active set,
so there are at most as many processing jobs as active ids. -/
theorem procCount_le_active (s : SchedState)
    (hkeys : (s.jobs.map Prod.fst).Nodup)
    (hpr : ∀ p ∈ s.jobs, p.2 = Cancellation.JobStatus.processing →
      p.1 ∈ s.active) :
    processingCount s ≤ s.active.length := by
  classical
  set l := s.jobs.filter
    (fun p => p.2 = Cancellation.JobStatus.processing) with hl
  have hsub : l.Sublist s.jobs := List.filter_sublist _
  have hmapsub : (l.map Prod.fst).Sublist (s.jobs.map Prod.fst) :=
    hsub.map _
  have hnodup : (l.map Prod.fst).Nodup := hkeys.sublist hmapsub
  have hss : ∀ x ∈ l.map Prod.fst, x ∈ s.active := by
    intro x hx
    obtain ⟨p, hp, hpx⟩ := List.mem_map.1 hx
    have hp2 : p ∈ s.jobs := hsub.subset hp
    rw [hl, List.mem_filter] at hp
    simp only [decide_eq_true_eq] at hp
    exact hpx ▸ hpr p hp2 hp.2
  have hlen : (l.map Prod.fst).length ≤ s.active.length := by
    calc (l.map Prod.fst).length
        = (l.map Prod.fst).toFinset.card :=
          (List.toFinset_card_of_nodup hnodup).symm
      _ ≤ s.active.toFinset.card :=
          Finset.card_le_card (fun x hx =>
            List.mem_toFinset.2 (hss x (List.mem_toFinset.1 hx)))
      _ ≤ s.active.length := s.active.toFinset_card_le
  have hpc : processingCount s = (l.map Prod.fst).length := by
    rw [List.length_map, processingCount, hl]
  rw [hpc]
  exact hlen

/-- Every reachable state satisfies the scheduler invariant. -/
theorem reachable_inv (C : ℕ) (s : SchedState) (hr : Reachable C s) :
    Inv C s := by
  induction hr with
  | init => exact inv_init C
  | step s t hr hs ih => exact inv_preserved C s t ih hs

/-- C3, amended: for the useImageConversion hook scheduler, whose state
updates are synchronous, in every state reachable from the empty state by
any sequence of job submissions, queue pulls, completions, cancellations
and retries under concurrency cap C, the number of jobs simultaneously in
processing status never exceeds C; the pull transition itself fires only
from the head of the queue and only when the active count is below the
cap, which the invariant propagates to the bound on processing jobs.
(ImageConversionWorkerService does not share this guarantee: see the
interleaving below that puts three jobs in processing under its cap 2.) -/
theorem concurrency_cap (C : ℕ) (s : SchedState) (hr : Reachable C s) :
    processingCount s ≤ C := by
  obtain ⟨hkeys, _, _, hcap, _, _, hpr⟩ := reachable_inv C s hr
  exact le_trans (procCount_le_active s hkeys hpr) hcap

/-- Witness: with cap 2, submitting jobs 1 and 2 and pulling both reaches a
state with two processing jobs, and the bound evaluates there. -/
theorem concurrency_cap_witness :
    processingCount
      { jobs := [(1, Cancellation.JobStatus.processing),
                 (2, Cancellation.JobStatus.processing)]
        queue := []
        active := [2, 1] } ≤ 2 := by
  have h0 : Reachable 2 { jobs := [], queue := [], active := [] } :=
    Reachable.init
  have h1 : Reachable 2
      { jobs := [(1, Cancellation.JobStatus.pending)]
        queue := [1], active := [] } :=
    Reachable.step _ _ h0 (Step.submit _ 1 rfl)
  have h2 : Reachable 2
      { jobs := [(1, Cancellation.JobStatus.pending),
                 (2, Cancellation.JobStatus.pending)]
        queue := [1, 2], active := [] } :=
    Reachable.step _ _ h1 (Step.submit _ 2 rfl)
  have h3 : Reachable 2
      { jobs := [(1, Cancellation.JobStatus.processing),
                 (2, Cancellation.JobStatus.pending)]
        queue := [2], active := [1] } :=
    Reachable.step _ _ h2 (Step.pull _ 1 [2] rfl (by decide))
  have h4 : Reachable 2
      { jobs := [(1, Cancellation.JobStatus.processing),
                 (2, Cancellation.JobStatus.processing)]
        queue := [], active := [2, 1] } :=
    Reachable.step _ _ h3 (Step.pull _ 2 [] rfl (by decide))
  exact concurrency_cap 2 _ h4

end Scheduler

/-! ## ImageConversionWorkerService queue processing

The worker service keeps a jobQueue map (id to job item with status) and
an activeJobs set, with maxConcurrentJobs = 2.  processQueuedJobs slices
the pending jobs to maxConcurrentJobs - activeJobs.size once at entry and
then awaits processJob for each sliced id with no further capacity check;
processJob marks the job processing and adds it to activeJobs before
suspending at await file.arrayBuffer(); convertImage enqueues the job as
pending and, when the worker is ready and activeJobs.size is below the
cap, starts it at once.  Interleaving a convertImage call at the arrayBuffer
suspension point of the first batch entry therefore lets the stale batch
overshoot the cap. -/

namespace WorkerService

/-- Job item status kept in the worker service's jobQueue. -/
inductive WStatus
  | pending
  | processing
deriving DecidableEq, Repr

/-- The jobQueue map (insertion-ordered ids to statuses) and the activeJobs
set of ImageConversionWorkerService. -/
structure WState where
  jobQueue : List (ℕ × WStatus)
  activeJobs : List ℕ
deriving DecidableEq, Repr

/-- maxConcurrentJobs = 2: the service's concurrency cap. -/
def maxConcurrentJobs : ℕ := 2

/-- jobItem.status = "processing" for the entry with the given id, other
entries unchanged. -/
def setProcessing : List (ℕ × WStatus) → ℕ → List (ℕ × WStatus)
  | [], _ => []
  | p :: t, id =>
    (if p.1 = id then (p.1, WStatus.processing) else p) :: setProcessing t id

/-- The synchronous prefix of processJob, up to the suspension at
await file.arrayBuffer(): set the item's status to processing and add the
id to activeJobs. -/
def processJobBegin (s : WState) (id : ℕ) : WState :=
  { jobQueue := setProcessing s.jobQueue id
    activeJobs := id :: s.activeJobs }

/-- The batch processQueuedJobs computes once at entry: the pending ids
sliced to maxConcurrentJobs - activeJobs.size. -/
def pendingBatch (s : WState) : List ℕ :=
  ((s.jobQueue.filter (fun p => p.2 = WStatus.pending)).map Prod.fst).take
    (maxConcurrentJobs - s.activeJobs.length)

/-- convertImage with the worker ready: enqueue the job as pending, then
start it at once if activeJobs.size is below the cap. -/
def convertImageStep (s : WState) (id : ℕ) : WState :=
  let s1 : WState := { s with jobQueue := s.jobQueue ++ [(id, WStatus.pending)] }
  if s1.activeJobs.length < maxConcurrentJobs then processJobBegin s1 id else s1

/-- One admissible interleaving of the async code: jobs 1 and 2 are pending
when the worker becomes ready, processQueuedJobs takes its batch [1, 2],
its first iteration runs processJob 1 up to the arrayBuffer suspension,
convertImage 3 interleaves there (the capacity check sees one active job),
and the loop then resumes processJob 2 from the stale batch with no
capacity re-check. -/
def workerRaceState : WState :=
  let s0 : WState := { jobQueue := [(1, WStatus.pending), (2, WStatus.pending)]
                       activeJobs := [] }
  match pendingBatch s0 with
  | [a, b] =>
    let s1 := processJobBegin s0 a
    let s2 := convertImageStep s1 3
    processJobBegin s2 b
  | _ => s0

/-- Number of jobQueue items whose status is processing. -/
def processingCountW (s : WState) : ℕ :=
  (s.jobQueue.filter (fun p => p.2 = WStatus.processing)).length

/-- C3 counterexample: ImageConversionWorkerService can exceed its cap.
processQueuedJobs slices cap - activeJobs.size pending jobs once and awaits
processJob for each without re-checking, while processJob adds to
activeJobs before suspending at file.arrayBuffer(); a convertImage call
interleaved at that suspension passes its own capacity check, so the
reachable state holds three jobs in processing status under cap 2. -/
theorem worker_cap_exceeded_counterexample :
    processingCountW workerRaceState = 3 ∧ maxConcurrentJobs = 2 := by
  constructor <;> rfl

end WorkerService

/-! ## useImageConversion hook state and cancelAllJobs

The hook keeps a jobs map (id to job record with status, progress, result,
error, endTime), a results map, an errors map, an isProcessing flag, a job
id queue and the abort controllers of active jobs.  cancelAllJobs aborts
and clears all controllers, clears the queue and the active set, and maps
every pending or processing job to status cancelled with a new endTime,
leaving all other jobs and the rest of the state untouched. -/

namespace Hook

/-- ConversionJobStateType fields the cancel paths read or write. -/
structure Job where
  status : Cancellation.JobStatus
  progress : ℕ
  result : Option ℕ
  error : Option String
  endTime : Option ℕ
deriving DecidableEq, Repr

/-- State kept by useImageConversion: the jobs map, the results map, the
errors map, the isProcessing flag, the queued job ids, and the ids holding
an abort controller. -/
structure HookState where
  jobs : List (ℕ × Job)
  results : List (ℕ × ℕ)
  errors : List (ℕ × String)
  isProcessing : Bool
  queue : List ℕ
  activeControllers : List ℕ
deriving DecidableEq, Repr

/-- Per-job update performed by the cancelAllJobs setState: pending or
processing jobs become cancelled with the current time as endTime, all
other jobs are returned unchanged. -/
def cancelAllTransform (now : ℕ) (j : Job) : Job :=
  if j.status = Cancellation.JobStatus.pending ∨
      j.status = Cancellation.JobStatus.processing then
    { j with status := Cancellation.JobStatus.cancelled, endTime := some now }
  else j

/-- cancelAllJobs: aborts every controller and clears the controller map,
clears the queue and the active set, applies cancelAllTransform to every
job of the map, sets isProcessing to false, and leaves results and errors
as they are. -/
def cancelAllJobs (s : HookState) (now : ℕ) : HookState :=
  { s with
    queue := []
    activeControllers := []
    jobs := s.jobs.map (fun p => (p.1, cancelAllTransform now p.2))
    isProcessing := false }

/-- Lookup through a value-only map of an association list. -/
theorem lookup_map_values (l : List (ℕ × Job)) (f : Job → Job) (id : ℕ) :
    (l.map (fun p => (p.1, f p.2))).lookup id = (l.lookup id).map f := by
  induction l with
  | nil => rfl
  | cons p t ih =>
    simp only [List.map_cons, List.lookup]
    cases heq : (id == p.1) with
    | true => rfl
    | false => exact ih

/-- Claim C10: cancelAllJobs changes only jobs whose status is pending or
processing, setting them to cancelled (with a new endTime); every job
already in completed, error or cancelled status keeps its record (status,
result, error) unchanged, and the results and errors maps are left
unchanged. -/
theorem cancelAllJobs_frame (s : HookState) (now id : ℕ) (j : Job)
    (hj : s.jobs.lookup id = some j) :
    ((j.status = Cancellation.JobStatus.completed ∨
        j.status = Cancellation.JobStatus.error ∨
        j.status = Cancellation.JobStatus.cancelled) →
      (cancelAllJobs s now).jobs.lookup id = some j) ∧
    ((j.status = Cancellation.JobStatus.pending ∨
        j.status = Cancellation.JobStatus.processing) →
      (cancelAllJobs s now).jobs.lookup id =
        some { j with status := Cancellation.JobStatus.cancelled,
                      endTime := some now }) ∧
    (cancelAllJobs s now).results = s.results ∧
    (cancelAllJobs s now).errors = s.errors := by
  have hbase : (cancelAllJobs s now).jobs.lookup id =
      (s.jobs.lookup id).map (cancelAllTransform now) := by
    show (s.jobs.map (fun p => (p.1, cancelAllTransform now p.2))).lookup id = _
    exact lookup_map_values s.jobs (cancelAllTransform now) id
  refine ⟨?_, ?_, rfl, rfl⟩
  · intro hterm
    rw [hbase, hj]
    have hcond : ¬ (j.status = Cancellation.JobStatus.pending ∨
        j.status = Cancellation.JobStatus.processing) := by
      rcases hterm with h | h | h <;> rw [h] <;> simp
    simp [cancelAllTransform, hcond]
  · intro hactive
    rw [hbase, hj]
    simp [cancelAllTransform, hactive]

/-- Sample state for the cancelAllJobs frame: one completed job with a
result and one pending job. -/
def sampleHookState : HookState :=
  { jobs := [(1, ⟨Cancellation.JobStatus.completed, 100, some 7, none, some 5⟩),
             (2, ⟨Cancellation.JobStatus.pending, 0, none, none, none⟩)]
    results := [(1, 7)]
    errors := []
    isProcessing := true
    queue := [2]
    activeControllers := [] }

/-- Witness for claim C10: in the sample state, cancelAllJobs keeps the
completed job and the results map unchanged. -/
theorem cancelAllJobs_frame_witness :
    ((Cancellation.JobStatus.completed = Cancellation.JobStatus.completed ∨
        Cancellation.JobStatus.completed = Cancellation.JobStatus.error ∨
        Cancellation.JobStatus.completed = Cancellation.JobStatus.cancelled) →
      (cancelAllJobs sampleHookState 9).jobs.lookup 1 =
        some ⟨Cancellation.JobStatus.completed, 100, some 7, none, some 5⟩) ∧
    ((Cancellation.JobStatus.completed = Cancellation.JobStatus.pending ∨
        Cancellation.JobStatus.completed = Cancellation.JobStatus.processing) →
      (cancelAllJobs sampleHookState 9).jobs.lookup 1 =
        some ⟨Cancellation.JobStatus.cancelled, 100, some 7, none, some 9⟩) ∧
    (cancelAllJobs sampleHookState 9).results = sampleHookState.results ∧
    (cancelAllJobs sampleHookState 9).errors = sampleHookState.errors :=
  cancelAllJobs_frame sampleHookState 9 1
    ⟨Cancellation.JobStatus.completed, 100, some 7, none, some 5⟩ (by decide)

end Hook

/-! ## Chunked processing service (chunked-processing-service.ts)

Pixel buffers (Uint8ClampedArray) are modelled as total functions from byte
index to byte value together with an explicit byte length where the code
depends on it; TypedArray.set together with subarray becomes the writeRow
range update, and the row loops become foldRows.  calculateChunkDimensions
uses Math.sqrt and real division; it is embedded over the rationals with
the identities floor (sqrt q * a) = Nat.sqrt (floor (q * a * a)) and
floor (sqrt q) = Nat.sqrt (floor q) for nonnegative q and a, and
Math.ceil (w / c) = (w + c - 1) / c on naturals. -/

namespace Chunked

/-- Byte buffer: value of the byte at each index. -/
abbrev Buf : Type := ℕ → ℕ

/-- ImageData: width, height and the RGBA byte buffer of w * h * 4 bytes. -/
structure ImageDataM where
  width : ℕ
  height : ℕ
  data : Buf

/-- ChunkedProcessingOptionsType: maxChunkSize is in megabytes (a JS number,
modelled as a rational), maxConcurrentChunks bounds concurrent chunk
processing, overlapPixels is the overlap between chunks. -/
structure ChunkedOptions where
  maxChunkSize : ℚ
  maxConcurrentChunks : ℕ
  overlapPixels : ℕ

/-- DEFAULT_OPTIONS of ChunkedProcessingService. -/
def defaultChunkedOptions : ChunkedOptions :=
  { maxChunkSize := 50, maxConcurrentChunks := 3, overlapPixels := 16 }

/-- Math.floor of sqrt q for a rational q, as a natural number. -/
def sqrtFloor (q : ℚ) : ℕ :=
  Nat.sqrt (Int.toNat ⌊q⌋)

/-- Math.floor of sqrt q * a for nonnegative rationals, as a natural
number: floor (sqrt q * a) = floor (sqrt (q * a * a)). -/
def sqrtFloorMul (q a : ℚ) : ℕ :=
  Nat.sqrt (Int.toNat ⌊q * a * a⌋)

/-- Output of calculateChunkDimensions. -/
structure ChunkDims where
  chunkWidth : ℕ
  chunkHeight : ℕ
  chunksX : ℕ
  chunksY : ℕ
deriving DecidableEq, Repr

/-- calculateChunkDimensions: target chunk edge from the memory budget
(maxPixelsPerChunk = maxChunkSize MB / 4 bytes per pixel, edge =
sqrt maxPixelsPerChunk), chunk width and height from the image aspect
ratio, clamped to the image dimensions, floored at the minimum edge 512,
and grid dimensions by ceiling division. -/
def calculateChunkDimensions (imageWidth imageHeight : ℕ)
    (opts : ChunkedOptions) : ChunkDims :=
  let maxPixelsPerChunk : ℚ := opts.maxChunkSize * 1024 * 1024 / 4
  let aspectRatio : ℚ := (imageWidth : ℚ) / (imageHeight : ℚ)
  let cw0 : ℕ :=
    if 1 ≤ aspectRatio then
      min (sqrtFloorMul maxPixelsPerChunk aspectRatio) imageWidth
    else
      min (sqrtFloor maxPixelsPerChunk) imageWidth
  let ch0 : ℕ :=
    if 1 ≤ aspectRatio then
      min (sqrtFloor maxPixelsPerChunk) imageHeight
    else
      min (sqrtFloorMul maxPixelsPerChunk (1 / aspectRatio)) imageHeight
  let chunkWidth := max cw0 512
  let chunkHeight := max ch0 512
  { chunkWidth := chunkWidth
    chunkHeight := chunkHeight
    chunksX := (imageWidth + chunkWidth - 1) / chunkWidth
    chunksY := (imageHeight + chunkHeight - 1) / chunkHeight }

/-- dst.set(src.subarray(srcStart, srcStart + len), tgtStart) where the
source typed array has srcLen elements: subarray clamps to the source
bounds, so min len (srcLen - srcStart) bytes are copied. -/
def writeRow (src : Buf) (srcLen srcStart tgtStart len : ℕ) (dst : Buf) :
    Buf :=
  fun i =>
    if tgtStart ≤ i ∧ i < tgtStart + min len (srcLen - srcStart) then
      src (srcStart + (i - tgtStart))
    else
      dst i

/-- Row loop: applies f to rows 0, 1, ..., n - 1 in order (the row n - 1 is
applied last). -/
def foldRows (f : ℕ → Buf → Buf) : ℕ → Buf → Buf
  | 0, b => b
  | n + 1, b => f n (foldRows f n b)

/-- ChunkType as produced by splitImageIntoChunks: the id string derived
from the grid position, the extracted bytes with their length, the full
image dimensions, the chunk origin, and the actual chunk dimensions. -/
structure Chunk where
  id : String
  data : Buf
  byteLength : ℕ
  width : ℕ
  height : ℕ
  x : ℕ
  y : ℕ
  chunkWidth : ℕ
  chunkHeight : ℕ

/-- Chunk id string: chunk-x-y for grid position x, y. -/
def mkChunkId (x y : ℕ) : String :=
  "chunk-" ++ toString x ++ "-" ++ toString y

/-- Row loop of splitImageIntoChunks extracting one chunk: row by row,
bytes are copied from the image buffer (of imageWidth * imageHeight * 4
bytes) starting at ((chunkStartY + row) * imageWidth + chunkStartX) * 4
into the zero-initialised chunk buffer at row * actualChunkWidth * 4. -/
def extractChunkData (data : Buf) (imageWidth imageHeight : ℕ)
    (chunkStartX chunkStartY acw ach : ℕ) : Buf :=
  foldRows
    (fun row dst =>
      writeRow data (imageWidth * imageHeight * 4)
        (((chunkStartY + row) * imageWidth + chunkStartX) * 4)
        (row * acw * 4) (acw * 4) dst)
    ach (fun _ => 0)

/-- Body of the double loop of splitImageIntoChunks at grid position x, y:
overlap added on every side that borders another chunk, start clamped at 0
(Math.max) and end clamped at the image dimensions (Math.min), and the
chunk bytes extracted row by row. -/
def chunkAt (img : ImageDataM) (opts : ChunkedOptions) (d : ChunkDims)
    (x y : ℕ) : Chunk :=
  let startX := x * d.chunkWidth
  let startY := y * d.chunkHeight
  let overlapLeft := if 0 < x then opts.overlapPixels else 0
  let overlapTop := if 0 < y then opts.overlapPixels else 0
  let overlapRight := if x < d.chunksX - 1 then opts.overlapPixels else 0
  let overlapBottom := if y < d.chunksY - 1 then opts.overlapPixels else 0
  let chunkStartX := startX - overlapLeft
  let chunkStartY := startY - overlapTop
  let chunkEndX := min img.width (startX + d.chunkWidth + overlapRight)
  let chunkEndY := min img.height (startY + d.chunkHeight + overlapBottom)
  let acw := chunkEndX - chunkStartX
  let ach := chunkEndY - chunkStartY
  { id := mkChunkId x y
    data := extractChunkData img.data img.width img.height chunkStartX
      chunkStartY acw ach
    byteLength := acw * ach * 4
    width := img.width
    height := img.height
    x := chunkStartX
    y := chunkStartY
    chunkWidth := acw
    chunkHeight := ach }

/-- Chunk list of splitImageIntoChunks for a given chunk layout: chunks
pushed for y = 0..chunksY-1 (outer loop) and x = 0..chunksX-1 (inner
loop). -/
def splitWithDims (img : ImageDataM) (opts : ChunkedOptions) (d : ChunkDims) :
    List Chunk :=
  (List.range d.chunksY).flatMap (fun y =>
    (List.range d.chunksX).map (fun x => chunkAt img opts d x y))

/-- splitImageIntoChunks: computes the chunk layout with
calculateChunkDimensions and extracts the chunk of every grid position. -/
def splitImageIntoChunks (img : ImageDataM) (opts : ChunkedOptions) :
    List Chunk :=
  splitWithDims img opts (calculateChunkDimensions img.width img.height opts)

/-- ChunkProcessingResultType: the chunk id, the processed bytes with
their length, and the success flag (the optional error object carries no
information used by reassembleChunks and is omitted). -/
structure ChunkProcessingResult where
  chunkId : String
  processedData : Buf
  processedLength : ℕ
  success : Bool

/-- Identity chunk processing: the processed bytes are the chunk bytes and
the chunk succeeds. -/
def identityProcessed (c : Chunk) : ChunkProcessingResult :=
  { chunkId := c.id
    processedData := c.data
    processedLength := c.byteLength
    success := true }

/-- Code-unit comparison of two character lists: the order localeCompare
induces on the ASCII chunk ids. -/
def charListLtb : List Char → List Char → Bool
  | [], [] => false
  | [], _ :: _ => true
  | _ :: _, [] => false
  | a :: as, b :: bs =>
    if a.toNat < b.toNat then true
    else if b.toNat < a.toNat then false
    else charListLtb as bs

/-- Strict id order used by the sorts of the chunked processing service. -/
def idLtb (a b : String) : Bool :=
  charListLtb a.data b.data

/-- Insertion into a list sorted ascending by chunkId. -/
def insertById (a : ChunkProcessingResult) :
    List ChunkProcessingResult → List ChunkProcessingResult
  | [] => [a]
  | b :: t => if idLtb a.chunkId b.chunkId then a :: b :: t else b :: insertById a t

/-- Stable ascending sort by chunkId, the order produced by
sort((a, b) => a.chunkId.localeCompare(b.chunkId)) on the ASCII chunk ids. -/
def sortById (l : List ChunkProcessingResult) : List ChunkProcessingResult :=
  l.foldr insertById []

/-- Body of the reassembly loop for the chunk at position i of the sorted
list: the grid position is recomputed from i as i % chunksX and
i / chunksX, the left and top overlaps are subtracted to recover the chunk
origin, and copyWidth * 4 bytes per row are copied from the processed chunk
bytes, assuming the source row stride (copyWidth + sourceOffsetX * 2) * 4,
into the output at ((copyStartY + row) * originalWidth + copyStartX) * 4. -/
def copyChunkIn (d : ChunkDims) (opts : ChunkedOptions)
    (originalWidth originalHeight : ℕ) (dst : Buf) (i : ℕ)
    (c : ChunkProcessingResult) : Buf :=
  let chunkX := i % d.chunksX
  let chunkY := i / d.chunksX
  let startX := chunkX * d.chunkWidth
  let startY := chunkY * d.chunkHeight
  let overlapLeft := if 0 < chunkX then opts.overlapPixels else 0
  let overlapTop := if 0 < chunkY then opts.overlapPixels else 0
  let actualStartX := startX - overlapLeft
  let actualStartY := startY - overlapTop
  let copyStartX := startX
  let copyStartY := startY
  let copyEndX := min originalWidth (startX + d.chunkWidth)
  let copyEndY := min originalHeight (startY + d.chunkHeight)
  let copyWidth := copyEndX - copyStartX
  let copyHeight := copyEndY - copyStartY
  let sourceOffsetX := copyStartX - actualStartX
  let sourceOffsetY := copyStartY - actualStartY
  foldRows
    (fun row acc =>
      writeRow c.processedData c.processedLength
        (((sourceOffsetY + row) * (copyWidth + sourceOffsetX * 2) +
            sourceOffsetX) * 4)
        (((copyStartY + row) * originalWidth + copyStartX) * 4)
        (copyWidth * 4) acc)
    copyHeight dst

/-- Reassembly for a given chunk layout: keeps the successful chunks, sorts
them by id, throws when none succeeded, and otherwise copies each sorted
chunk in order onto the zero-initialised output buffer of
originalWidth * originalHeight * 4 bytes. -/
def reassembleWithDims (processedChunks : List ChunkProcessingResult)
    (originalWidth originalHeight : ℕ) (opts : ChunkedOptions)
    (d : ChunkDims) : Except String ImageDataM :=
  let sortedChunks := sortById (processedChunks.filter (fun c => c.success))
  if sortedChunks.length = 0 then
    Except.error "No successfully processed chunks to reassemble"
  else
    let out :=
      sortedChunks.enum.foldl
        (fun dst p => copyChunkIn d opts originalWidth originalHeight dst p.1 p.2)
        (fun _ => 0)
    Except.ok { width := originalWidth, height := originalHeight, data := out }

/-- reassembleChunks: recomputes the chunk layout with
calculateChunkDimensions (as the source does) and reassembles. -/
def reassembleChunks (processedChunks : List ChunkProcessingResult)
    (originalWidth originalHeight : ℕ) (opts : ChunkedOptions) :
    Except String ImageDataM :=
  reassembleWithDims processedChunks originalWidth originalHeight opts
    (calculateChunkDimensions originalWidth originalHeight opts)

/-- Byte at a given index of the image carried by an Except-result, with
999 as the sentinel for the error case. -/
def exceptByte (e : Except String ImageDataM) (i : ℕ) : ℕ :=
  match e with
  | Except.ok o => o.data i
  | Except.error _ => 999

/-- Whether an Except-result is the Except.ok case. -/
def exceptIsOk (e : Except String ImageDataM) : Bool :=
  match e with
  | Except.ok _ => true
  | Except.error _ => false

/-- Sample image: 513 pixels wide, 2 pixels tall, byte i holding i mod 256. -/
def stripeImage : ImageDataM :=
  { width := 513, height := 2, data := fun i => i % 256 }

/-- Chunk options with a positive maxChunkSize of 2^-18 MB (one pixel of
budget, forcing several chunks for any image wider than 512) and the
default positive 16 pixel overlap. -/
def tinyChunkOptions : ChunkedOptions :=
  { maxChunkSize := 1 / 262144, maxConcurrentChunks := 3, overlapPixels := 16 }

/-- Evaluation of Nat.sqrt at 65792. -/
theorem sqrt_65792 : Nat.sqrt 65792 = 256 :=
  Nat.le_antisymm (Nat.lt_succ_iff.1 (Nat.sqrt_lt.2 (by norm_num)))
    (Nat.le_sqrt.2 (by norm_num))

/-- The chunk layout of the 513 x 2 image under tinyChunkOptions: a 2 x 1
grid of 512 x 512 chunks. -/
theorem stripeDims : calculateChunkDimensions 513 2 tinyChunkOptions =
    { chunkWidth := 512, chunkHeight := 512, chunksX := 2, chunksY := 1 } := by
  unfold calculateChunkDimensions
  have ha : (1 : ℚ) ≤ (513 : ℕ) / ((2 : ℕ) : ℚ) := by norm_num
  have h1 : sqrtFloorMul (tinyChunkOptions.maxChunkSize * 1024 * 1024 / 4)
      (((513 : ℕ) : ℚ) / ((2 : ℕ) : ℚ)) = 256 := by
    unfold sqrtFloorMul
    have h : (tinyChunkOptions.maxChunkSize * 1024 * 1024 / 4 *
        (((513 : ℕ) : ℚ) / ((2 : ℕ) : ℚ)) * (((513 : ℕ) : ℚ) / ((2 : ℕ) : ℚ))) =
        263169 / 4 := by
      norm_num [tinyChunkOptions]
    rw [h]
    have h2 : (⌊(263169 / 4 : ℚ)⌋ : ℤ) = 65792 := by norm_num
    rw [h2, show Int.toNat 65792 = 65792 from rfl, sqrt_65792]
  have h2 : sqrtFloor (tinyChunkOptions.maxChunkSize * 1024 * 1024 / 4) = 1 := by
    unfold sqrtFloor
    have h : (tinyChunkOptions.maxChunkSize * 1024 * 1024 / 4 : ℚ) = 1 := by
      norm_num [tinyChunkOptions]
    rw [h]
    norm_num
  simp only [if_pos ha, h1, h2]
  norm_num

/-- The split of the stripe image, with each chunk processed by the
identity function. -/
def stripeProcessed : List ChunkProcessingResult :=
  (splitWithDims stripeImage tinyChunkOptions
    { chunkWidth := 512, chunkHeight := 512, chunksX := 2, chunksY := 1 }).map
    identityProcessed

/-- The reassembly of the identity-processed stripe chunks. -/
def stripeReassembled : Except String ImageDataM :=
  reassembleWithDims stripeProcessed 513 2 tinyChunkOptions
    { chunkWidth := 512, chunkHeight := 512, chunksX := 2, chunksY := 1 }

/-- Byte 2052 (pixel (1, 0), red channel) of the reassembled stripe image
evaluates to 0: the reassembly loop reads the first chunk with row stride
copyWidth * 4 = 2048 although the chunk was extracted with its overlap and
has row stride 2052, so row 1 is reconstructed from the wrong bytes. -/
theorem stripeReassembled_byte : exceptByte stripeReassembled 2052 = 0 := by
  decide

/-- The real entry points agree with the explicit-layout computation on the
stripe image. -/
theorem stripe_pipeline_eq :
    reassembleChunks ((splitImageIntoChunks stripeImage tinyChunkOptions).map
        identityProcessed) 513 2 tinyChunkOptions = stripeReassembled := by
  rw [splitImageIntoChunks, show stripeImage.width = 513 from rfl,
    show stripeImage.height = 2 from rfl, stripeDims, reassembleChunks, stripeDims]
  rfl

/-- Claim C1, counterexample: for the 513 x 2 image whose byte i holds
i mod 256 and the valid configuration with positive maxChunkSize 2^-18 MB
and positive overlap 16, reassembling the identity-processed chunks of
splitImageIntoChunks yields byte 0 at index 2052 where the original buffer
holds 4, so the round trip is not byte-for-byte the identity. -/
theorem chunk_roundtrip_counterexample :
    exceptByte
        (reassembleChunks ((splitImageIntoChunks stripeImage tinyChunkOptions).map
          identityProcessed) 513 2 tinyChunkOptions) 2052 = 0 ∧
      stripeImage.data 2052 = 4 := by
  refine ⟨?_, by decide⟩
  rw [stripe_pipeline_eq]
  exact stripeReassembled_byte

/-- Pointwise form of one writeRow application. -/
theorem writeRow_apply (src : Buf) (srcLen srcStart tgtStart len : ℕ)
    (dst : Buf) (i : ℕ) :
    writeRow src srcLen srcStart tgtStart len dst i =
      if tgtStart ≤ i ∧ i < tgtStart + min len (srcLen - srcStart) then
        src (srcStart + (i - tgtStart))
      else dst i := rfl

/-- A row loop that copies n full rows of width w, each row from source
offset row * w * 4 to the same target offset, out of a source of
w * h * 4 bytes (n ≤ h), produces the source on the copied range and 0
elsewhere. -/
theorem foldRows_copy (src : Buf) (w h : ℕ) (f : ℕ → Buf → Buf)
    (hf : ∀ row acc,
      f row acc = writeRow src (w * h * 4) (row * w * 4) (row * w * 4) (w * 4) acc) :
    ∀ n, n ≤ h → ∀ i,
      foldRows f n (fun _ => 0) i = if i < n * w * 4 then src i else 0 := by
  intro n
  induction n with
  | zero =>
    intro _ i
    simp [foldRows]
  | succ n ih =>
    intro hn i
    have hle : n ≤ h := by omega
    rw [foldRows, hf, writeRow_apply]
    have heff : min (w * 4) (w * h * 4 - n * w * 4) = w * 4 := by
      have : n * w * 4 + w * 4 ≤ w * h * 4 := by nlinarith
      omega
    rw [heff]
    have hsucc : (n + 1) * w * 4 = n * w * 4 + w * 4 := by ring
    by_cases hi : n * w * 4 ≤ i ∧ i < n * w * 4 + w * 4
    · rw [if_pos hi]
      have hsrc : n * w * 4 + (i - n * w * 4) = i := by omega
      rw [hsrc, if_pos (by omega : i < (n + 1) * w * 4)]
    · rw [if_neg hi, ih hle]
      by_cases h2 : i < n * w * 4
      · rw [if_pos h2, if_pos (by omega)]
      · rw [if_neg h2, if_neg (by omega)]

/-- Shape of the single chunk produced when the grid is 1 x 1: no overlap
on any side, origin 0, and the full image dimensions. -/
theorem chunkAt_single (img : ImageDataM) (opts : ChunkedOptions) (d : ChunkDims)
    (hcw : img.width ≤ d.chunkWidth) (hch : img.height ≤ d.chunkHeight)
    (hX : d.chunksX = 1) (hY : d.chunksY = 1) :
    chunkAt img opts d 0 0 =
      { id := mkChunkId 0 0
        data := extractChunkData img.data img.width img.height 0 0 img.width img.height
        byteLength := img.width * img.height * 4
        width := img.width
        height := img.height
        x := 0
        y := 0
        chunkWidth := img.width
        chunkHeight := img.height } := by
  rw [chunkAt]
  simp [hX, hY, Nat.min_eq_left hcw, Nat.min_eq_left hch]

/-- Round trip through split and reassembly for an explicit 1 x 1 chunk
layout whose single chunk covers the whole image. -/
theorem roundtrip_single_dims (img : ImageDataM) (opts : ChunkedOptions)
    (d : ChunkDims)
    (hcw : img.width ≤ d.chunkWidth) (hch : img.height ≤ d.chunkHeight)
    (hX : d.chunksX = 1) (hY : d.chunksY = 1) :
    ∃ out,
      reassembleWithDims ((splitWithDims img opts d).map identityProcessed)
          img.width img.height opts d = Except.ok out ∧
      out.width = img.width ∧ out.height = img.height ∧
      ∀ i, i < img.width * img.height * 4 → out.data i = img.data i := by
  have hsplit : splitWithDims img opts d = [chunkAt img opts d 0 0] := by
    rw [splitWithDims, hX, hY]
    rfl
  rw [hsplit, chunkAt_single img opts d hcw hch hX hY]
  set w := img.width with hwdef
  set h := img.height with hhdef
  set c : ChunkProcessingResult :=
    ⟨mkChunkId 0 0, extractChunkData img.data w h 0 0 w h, w * h * 4, true⟩ with hcdef
  have hmap : ([⟨mkChunkId 0 0, extractChunkData img.data w h 0 0 w h,
      w * h * 4, w, h, 0, 0, w, h⟩] : List Chunk).map identityProcessed = [c] := rfl
  rw [hmap]
  have hextract : ∀ i, c.processedData i = if i < h * w * 4 then img.data i else 0 := by
    intro i
    show extractChunkData img.data w h 0 0 w h i = _
    rw [extractChunkData]
    refine foldRows_copy img.data w h _ ?_ h le_rfl i
    intro row acc
    rw [show (0 + row) * w + 0 = row * w from by ring]
  have hre : reassembleWithDims [c] w h opts d =
      Except.ok ⟨w, h, copyChunkIn d opts w h (fun _ => 0) 0 c⟩ := rfl
  rw [hre]
  refine ⟨_, rfl, rfl, rfl, ?_⟩
  intro i hi
  show copyChunkIn d opts w h (fun _ => 0) 0 c i = img.data i
  have hout : copyChunkIn d opts w h (fun _ => 0) 0 c i =
      if i < h * w * 4 then c.processedData i else 0 := by
    rw [copyChunkIn]
    simp only [Nat.zero_mod, Nat.zero_div]
    norm_num [Nat.min_eq_left hcw, Nat.min_eq_left hch]
    refine foldRows_copy c.processedData w h _ ?_ h le_rfl i
    intro row acc
    rfl
  have hcomm : w * h = h * w := Nat.mul_comm w h
  rw [hout, hextract, if_pos (by omega : i < h * w * 4),
    if_pos (by omega : i < h * w * 4)]

/-- The chunkWidth computed by calculateChunkDimensions is at least the
minimum edge 512. -/
theorem calcDims_chunkWidth_ge (w h : ℕ) (opts : ChunkedOptions) :
    512 ≤ (calculateChunkDimensions w h opts).chunkWidth := by
  rw [calculateChunkDimensions]
  exact Nat.le_max_right _ _

/-- The chunkHeight computed by calculateChunkDimensions is at least the
minimum edge 512. -/
theorem calcDims_chunkHeight_ge (w h : ℕ) (opts : ChunkedOptions) :
    512 ≤ (calculateChunkDimensions w h opts).chunkHeight := by
  rw [calculateChunkDimensions]
  exact Nat.le_max_right _ _

/-- chunksX is the ceiling division of the width by the chunk width. -/
theorem calcDims_chunksX_def (w h : ℕ) (opts : ChunkedOptions) :
    (calculateChunkDimensions w h opts).chunksX =
      (w + (calculateChunkDimensions w h opts).chunkWidth - 1) /
        (calculateChunkDimensions w h opts).chunkWidth := rfl

/-- chunksY is the ceiling division of the height by the chunk height. -/
theorem calcDims_chunksY_def (w h : ℕ) (opts : ChunkedOptions) :
    (calculateChunkDimensions w h opts).chunksY =
      (h + (calculateChunkDimensions w h opts).chunkHeight - 1) /
        (calculateChunkDimensions w h opts).chunkHeight := rfl

/-- A ceiling division equal to one bounds the dividend by the divisor. -/
theorem le_of_ceilDiv_eq_one (w c : ℕ) (hc : 0 < c)
    (h1 : (w + c - 1) / c = 1) : w ≤ c := by
  by_contra hlt
  have h2 : 2 * c ≤ w + c - 1 := by omega
  have := (Nat.le_div_iff_mul_le hc).2 h2
  omega

/-- A 1-wide chunk grid means the image width fits in one chunk. -/
theorem width_le_of_single (w h : ℕ) (opts : ChunkedOptions)
    (hX : (calculateChunkDimensions w h opts).chunksX = 1) :
    w ≤ (calculateChunkDimensions w h opts).chunkWidth := by
  refine le_of_ceilDiv_eq_one w _
    (by have := calcDims_chunkWidth_ge w h opts; omega) ?_
  rw [← calcDims_chunksX_def, hX]

/-- A 1-tall chunk grid means the image height fits in one chunk. -/
theorem height_le_of_single (w h : ℕ) (opts : ChunkedOptions)
    (hY : (calculateChunkDimensions w h opts).chunksY = 1) :
    h ≤ (calculateChunkDimensions w h opts).chunkHeight := by
  refine le_of_ceilDiv_eq_one h _
    (by have := calcDims_chunkHeight_ge w h opts; omega) ?_
  rw [← calcDims_chunksY_def, hY]

/-- Claim C1, amended: when the chunk layout computed from the image and
the configuration is a single chunk (chunksX = chunksY = 1, which holds
whenever the image fits in one chunk, in particular for every image of at
most 512 x 512 pixels), reassembling the identity-processed chunks of
splitImageIntoChunks yields a buffer byte-for-byte equal to the original
with exactly the original dimensions; for layouts with more than one chunk
the round trip can differ from the original (see the counterexample). -/
theorem chunk_roundtrip_single_grid (img : ImageDataM) (opts : ChunkedOptions)
    (hX : (calculateChunkDimensions img.width img.height opts).chunksX = 1)
    (hY : (calculateChunkDimensions img.width img.height opts).chunksY = 1) :
    ∃ out,
      reassembleChunks ((splitImageIntoChunks img opts).map identityProcessed)
          img.width img.height opts = Except.ok out ∧
      out.width = img.width ∧ out.height = img.height ∧
      ∀ i, i < img.width * img.height * 4 → out.data i = img.data i := by
  rw [splitImageIntoChunks, reassembleChunks]
  exact roundtrip_single_dims img opts _
    (width_le_of_single _ _ _ hX) (height_le_of_single _ _ _ hY) hX hY

/-- The chunk layout of a 4 x 4 image under tinyChunkOptions is a single
512 x 512 chunk. -/
theorem smallSquareDims : calculateChunkDimensions 4 4 tinyChunkOptions =
    { chunkWidth := 512, chunkHeight := 512, chunksX := 1, chunksY := 1 } := by
  unfold calculateChunkDimensions
  have ha : (1 : ℚ) ≤ (4 : ℕ) / ((4 : ℕ) : ℚ) := by norm_num
  have h1 : sqrtFloorMul (tinyChunkOptions.maxChunkSize * 1024 * 1024 / 4)
      (((4 : ℕ) : ℚ) / ((4 : ℕ) : ℚ)) = 1 := by
    unfold sqrtFloorMul
    have h : (tinyChunkOptions.maxChunkSize * 1024 * 1024 / 4 *
        (((4 : ℕ) : ℚ) / ((4 : ℕ) : ℚ)) * (((4 : ℕ) : ℚ) / ((4 : ℕ) : ℚ))) = 1 := by
      norm_num [tinyChunkOptions]
    rw [h]
    norm_num
  have h2 : sqrtFloor (tinyChunkOptions.maxChunkSize * 1024 * 1024 / 4) = 1 := by
    unfold sqrtFloor
    have h : (tinyChunkOptions.maxChunkSize * 1024 * 1024 / 4 : ℚ) = 1 := by
      norm_num [tinyChunkOptions]
    rw [h]
    norm_num
  simp only [if_pos ha, h1, h2]
  norm_num

/-- Sample 4 x 4 image for the single-chunk round trip. -/
def witnessImage : ImageDataM :=
  { width := 4, height := 4, data := fun i => (i + 7) % 256 }

/-- Witness for claim C1: the single-chunk round trip at the concrete
4 x 4 image under tinyChunkOptions. -/
theorem chunk_roundtrip_single_grid_witness :
    ∃ out,
      reassembleChunks ((splitImageIntoChunks witnessImage tinyChunkOptions).map
          identityProcessed) witnessImage.width witnessImage.height
          tinyChunkOptions = Except.ok out ∧
      out.width = witnessImage.width ∧ out.height = witnessImage.height ∧
      ∀ i, i < witnessImage.width * witnessImage.height * 4 →
        out.data i = witnessImage.data i :=
  chunk_roundtrip_single_grid witnessImage tinyChunkOptions
    (by rw [show witnessImage.width = 4 from rfl,
          show witnessImage.height = 4 from rfl, smallSquareDims])
    (by rw [show witnessImage.width = 4 from rfl,
          show witnessImage.height = 4 from rfl, smallSquareDims])

/-- Inserting into the sorted list grows the length by one. -/
theorem insertById_length (a : ChunkProcessingResult)
    (l : List ChunkProcessingResult) :
    (insertById a l).length = l.length + 1 := by
  induction l with
  | nil => rfl
  | cons b t ih =>
    rw [insertById]
    by_cases hab : idLtb a.chunkId b.chunkId
    · simp [hab]
    · simp [hab, ih]

/-- Sorting by id preserves the length. -/
theorem sortById_length (l : List ChunkProcessingResult) :
    (sortById l).length = l.length := by
  induction l with
  | nil => rfl
  | cons b t ih =>
    show (insertById b (sortById t)).length = t.length + 1
    rw [insertById_length, ih]

/-- A successful processed chunk. -/
def okChunkSample : ChunkProcessingResult := ⟨"chunk-0-0", fun _ => 0, 64, true⟩

/-- A failed processed chunk. -/
def failedChunkSample : ChunkProcessingResult := ⟨"chunk-1-0", fun _ => 0, 0, false⟩

/-- Claim C2, counterexample: called with one successful and one failed
chunk (some but not all chunks failed), reassembleChunks returns
Except.ok, silently assembling an image from only the successful chunk
instead of failing with the failed chunk ids. -/
theorem reassemble_partial_failure_counterexample :
    okChunkSample.success = true ∧ failedChunkSample.success = false ∧
      exceptIsOk (reassembleChunks [okChunkSample, failedChunkSample] 4 4
        tinyChunkOptions) = true := by
  refine ⟨rfl, rfl, ?_⟩
  decide

/-- Claim C2, amended: reassembleChunks filters the submitted results to
the successful ones; whenever at least one chunk succeeded it silently
returns an image assembled from only the successful chunks, and it throws
only when every chunk failed, with a fixed message that carries no failed
chunk ids. -/
theorem reassemble_failure_behavior (processed : List ChunkProcessingResult)
    (w h : ℕ) (opts : ChunkedOptions) :
    ((∃ c ∈ processed, c.success = true) →
      ∃ out, reassembleChunks processed w h opts = Except.ok out) ∧
    ((∀ c ∈ processed, c.success = false) →
      reassembleChunks processed w h opts =
        Except.error "No successfully processed chunks to reassemble") := by
  constructor
  · rintro ⟨c, hc, hsucc⟩
    rw [reassembleChunks, reassembleWithDims]
    have hmem : c ∈ processed.filter (fun c => c.success) :=
      List.mem_filter.2 ⟨hc, hsucc⟩
    have hne : (sortById (processed.filter (fun c => c.success))).length ≠ 0 := by
      rw [sortById_length]
      intro hzero
      rw [List.length_eq_zero] at hzero
      rw [hzero] at hmem
      exact List.not_mem_nil c hmem
    rw [if_neg hne]
    exact ⟨_, rfl⟩
  · intro hall
    rw [reassembleChunks, reassembleWithDims]
    have hnil : processed.filter (fun c => c.success) = [] := by
      rw [List.filter_eq_nil_iff]
      intro c hc
      simp [hall c hc]
    rw [hnil]
    rfl

/-- Witness for claim C2: the mixed success and failure call at the
concrete chunks. -/
theorem reassemble_failure_behavior_witness :
    ∃ out, reassembleChunks [okChunkSample, failedChunkSample] 4 4
      tinyChunkOptions = Except.ok out :=
  (reassemble_failure_behavior [okChunkSample, failedChunkSample] 4 4
    tinyChunkOptions).1 ⟨okChunkSample, List.mem_cons_self _ _, rfl⟩

end Chunked

end WebpPlayground
